import Mathlib

/-!
Shallow embedding of the toast notification scheduler in `src/lib.rs` of
`bevy_anyhow_alert`.

The plugin is generic over a marker component `M`; each marker type is an
independent notification channel, modelled here by a `Nat` tag.  ECS entities
are modelled by `Nat` ids allocated from a counter.  A `Toast` entity carries
the `Toast`, `ToastTimer` and marker components; the presence of the `ToastUi`
component (inserted on promotion, together with the widget child entities) is
modelled by the `widget` field being `some`.  The `ToastUiRoot` container
entities are kept in a separate list since they never carry `Toast`/`ToastUi`
and hence never appear in the toast queries.  Durations (`Stopwatch` elapsed
time, lifetime, frame delta) are in integral time units (`Nat`).

Query iteration is modelled as list order, with pending toasts appearing in
arrival order, which is what the admission logic of `spawn_toasts` relies on.

The resources `MaxToasts<M>` and `ToastLifetime<M>` are set at startup and
never written afterwards, so they are modelled as a `Config` parameter rather
than mutable state.
-/

/-- The three widget child entities spawned under a toast entity when it is
promoted: the dismiss button (carrying `DismissButton { toast }`), the "X"
text under the button, and the message text node. -/
structure ToastWidget where
  buttonId : Nat
  dismissTextId : Nat
  textId : Nat
deriving DecidableEq

/-- One notification record: an ECS entity with the `Toast` component
(`message`), the `ToastTimer` component (`elapsed` = `time_alive`,
`lifetime`), and a channel marker component `M` (the `channel` tag).
`widget = some _` iff the entity also has the `ToastUi` component, i.e. it has
been promoted to a visible widget. -/
structure ToastEntity where
  id : Nat
  channel : Nat
  message : String
  elapsed : Nat
  lifetime : Nat
  widget : Option ToastWidget
deriving DecidableEq

/-- A `ToastUiRoot` container entity (with its channel marker `M`). -/
structure ToastUiRoot where
  id : Nat
  channel : Nat
deriving DecidableEq

/-- The ECS world state relevant to the plugin. -/
structure World where
  toasts : List ToastEntity
  roots : List ToastUiRoot
  nextId : Nat
deriving DecidableEq

/-- The per-channel startup resources: `MaxToasts<M>` (default 3) and
`ToastLifetime<M>` (default 10 s). -/
structure Config where
  maxToasts : Nat → Nat
  toastLifetime : Nat → Nat

/-- Query `(Entity, (With<M>, With<ToastUi>))`: the promoted (visible)
toasts of channel `c`. -/
def spawnedToasts (c : Nat) (w : World) : List ToastEntity :=
  w.toasts.filter (fun t => t.channel = c ∧ t.widget.isSome)

/-- Query `((Entity, &Toast), (With<M>, Without<ToastUi>))`: the pending
toasts of channel `c`, in arrival order. -/
def toastsToSpawn (c : Nat) (w : World) : List ToastEntity :=
  w.toasts.filter (fun t => t.channel = c ∧ t.widget = none)

/-- Query `(Entity, (With<M>, With<ToastUiRoot>))`: containers of channel
`c`. -/
def rootsFor (c : Nat) (w : World) : List ToastUiRoot :=
  w.roots.filter (fun r => r.channel = c)

/-- `Query::single()` on the root query: returns the root when exactly one
matches; `none` stands for the panic branches (no match / multiple
matches). -/
def queryHead : List ToastUiRoot → Option ToastUiRoot
  | [r] => some r
  | _ => none

def promotedCount (c : Nat) (w : World) : Nat := (spawnedToasts c w).length

def pendingCount (c : Nat) (w : World) : Nat := (toastsToSpawn c w).length

/-- Body of the loop in `tick_active_toasts`: for a toast matched by the
`(With<M>, With<ToastUi>)` query, `timer.time_alive.tick(time.delta())`, then
the expiry comparison `timer.time_alive.elapsed() > timer.lifetime`, whose
body is empty in the source (the despawn is commented out behind a TODO). -/
def tickToast (c δ : Nat) (t : ToastEntity) : ToastEntity :=
  if t.channel = c ∧ t.widget.isSome then
    let t1 := { t with elapsed := t.elapsed + δ }
    if t1.elapsed > t1.lifetime then
      t1
    else t1
  else t

/-- System `ToastPlugin::<M>::tick_active_toasts`. -/
def tick_active_toasts (c δ : Nat) (w : World) : World :=
  { w with toasts := w.toasts.map (tickToast c δ) }

/-- System `ToastPlugin::<M>::despawn_toast_root`: if the channel has no
pending and no live toasts, despawn (recursively) its container, if any.
When the container exists its children are exactly the promoted toasts, and
the guard guarantees there are none, so the recursive despawn removes just
the root entity. -/
def despawn_toast_root (c : Nat) (w : World) : World :=
  if (toastsToSpawn c w).length + (spawnedToasts c w).length = 0 then
    if (rootsFor c w).isEmpty then w
    else
      match queryHead (rootsFor c w) with
      | some r => { w with roots := w.roots.filter (fun x => ¬x.id = r.id) }
      | none => w
  else w

/-- Promotion of a single pending toast entity `tid` (one iteration of the
loop in `spawn_toasts`): insert `(ToastUi, node bundle, M)` on it and spawn
its three widget children (dismiss button, dismiss text, message text) with
fresh ids; the toast is also attached as a child of the root container. -/
def promoteToast (w : World) (tid : Nat) : World :=
  { w with
    toasts := w.toasts.map (fun t =>
      if t.id = tid then
        { t with widget := some ⟨w.nextId, w.nextId + 1, w.nextId + 2⟩ }
      else t),
    nextId := w.nextId + 3 }

def promoteAll (w : World) : List Nat → World
  | [] => w
  | tid :: rest => promoteAll (promoteToast w tid) rest

/-- The ids promoted by one run of `spawn_toasts` for channel `c`:
`toasts_to_spawn.iter().take(max_toasts.saturating_sub(num_live_toasts))`,
read from the pre-system state `w`. -/
def promotedIds (cfg : Config) (c : Nat) (w : World) : List Nat :=
  ((toastsToSpawn c w).take (cfg.maxToasts c - (spawnedToasts c w).length)).map (fun t => t.id)

/-- System `ToastPlugin::<M>::spawn_toasts`: early-return when the channel is
empty; otherwise ensure a single root container exists (spawning one with a
fresh id when the root query is empty; the source calls `single()` on the
root query in the other branch, relying on the at-most-one-root invariant),
then promote pending toasts up to the remaining capacity, in query order. -/
def spawn_toasts (cfg : Config) (c : Nat) (w : World) : World :=
  if (toastsToSpawn c w).length + (spawnedToasts c w).length = 0 then w
  else
    promoteAll
      (if (rootsFor c w).isEmpty then
        { w with roots := w.roots ++ [⟨w.nextId, c⟩], nextId := w.nextId + 1 }
      else w)
      (promotedIds cfg c w)

/-- The toast ids despawned by `handle_dismiss_toast_buttons`: the query
`(&Interaction, &DismissButton)` has no marker filter, so it sees the dismiss
buttons of every channel; `pressed` is the set of button entities whose
`Interaction` is `Pressed`, and each matching `DismissButton` contributes its
`toast` back-reference. -/
def dismissedIds (pressed : List Nat) (w : World) : List Nat :=
  w.toasts.filterMap (fun t =>
    match t.widget with
    | some g => if g.buttonId ∈ pressed then some t.id else none
    | none => none)

/-- System `ToastPlugin::<M>::handle_dismiss_toast_buttons`:
`despawn_recursive` every toast whose dismiss button is pressed (the widget
children stored in the record are removed with it). -/
def handle_dismiss_toast_buttons (pressed : List Nat) (w : World) : World :=
  { w with toasts := w.toasts.filter (fun t => ¬t.id ∈ dismissedIds pressed w) }

/-- One `PostUpdate` tick of channel `c`'s system chain, in the order of
`ToastPlugin::build`:
`(tick_active_toasts, despawn_toast_root, spawn_toasts,
handle_dismiss_toast_buttons).chain()`, with each system's commands applied
before the next system runs. -/
def channelTick (cfg : Config) (c δ : Nat) (pressed : List Nat) (w : World) : World :=
  handle_dismiss_toast_buttons pressed
    (spawn_toasts cfg c
      (despawn_toast_root c
        (tick_active_toasts c δ w)))

/-- `ToastPlugin::<M>::custom_toast` (and `ToastPlugin::toast`, its
`ToastMarker` instance): spawn one pending toast entity per message, with a
fresh stopwatch and the channel's configured lifetime. -/
def custom_toast (cfg : Config) (c : Nat) (msgs : List String) (w : World) : World :=
  msgs.foldl (fun acc msg =>
    { acc with
      toasts := acc.toasts ++ [⟨acc.nextId, c, msg, 0, cfg.toastLifetime c, none⟩],
      nextId := acc.nextId + 1 }) w

/-- External events driving the model: an emission (`custom_toast`) for some
channel, or one host-scheduler tick running the chains of the listed channels
(each installed `ToastPlugin<M>` adds one chain to `PostUpdate`). -/
inductive Event where
  | submit (c : Nat) (msgs : List String)
  | tick (cs : List Nat) (δ : Nat) (pressed : List Nat)

def stepEvent (cfg : Config) (w : World) : Event → World
  | .submit c msgs => custom_toast cfg c msgs w
  | .tick cs δ pressed => cs.foldl (fun acc c => channelTick cfg c δ pressed acc) w

def runTrace (cfg : Config) (w : World) (evs : List Event) : World :=
  evs.foldl (stepEvent cfg) w

/-- The world at app startup: no toasts, no containers. -/
def World.start : World := ⟨[], [], 0⟩

/-! ### Observable view of a toast entity

`ObsToast` records every component field of a toast except the widget child
entity ids (which are an allocation artifact): identity, channel marker,
`Toast` message, `ToastTimer` clock and lifetime, and whether `ToastUi` is
present. -/

structure ObsToast where
  id : Nat
  channel : Nat
  message : String
  elapsed : Nat
  lifetime : Nat
  ui : Bool
deriving DecidableEq

def ToastEntity.obs (t : ToastEntity) : ObsToast :=
  ⟨t.id, t.channel, t.message, t.elapsed, t.lifetime, t.widget.isSome⟩

/-! ### Reachability invariant

Well-formedness of the ECS world: entity ids are unique and below the
allocator counter, and each channel has at most one container (channels of
live containers are pairwise distinct). -/

def World.Inv (w : World) : Prop :=
  (w.toasts.map (fun t => t.id)).Nodup ∧
  (w.roots.map (fun r => r.id)).Nodup ∧
  (w.roots.map (fun r => r.channel)).Nodup ∧
  (∀ t ∈ w.toasts, t.id < w.nextId) ∧
  (∀ r ∈ w.roots, r.id < w.nextId)

/-- A despawned entity id: absent from the live toast set and below the
allocator counter, so no later tick or emission can reintroduce it. -/
def DeadId (i : Nat) (w : World) : Prop :=
  ¬i ∈ w.toasts.map (fun t => t.id) ∧ i < w.nextId

/-! ### Identity-free observables of one channel

For channel isolation the observable state of a channel is taken without
entity ids (ids are an allocation artifact shared across channels): the
ordered record list (message, clock, lifetime, visibility) and container
existence. -/

structure ObsRec where
  message : String
  elapsed : Nat
  lifetime : Nat
  ui : Bool
deriving DecidableEq

def ToastEntity.obsRec (t : ToastEntity) : ObsRec :=
  ⟨t.message, t.elapsed, t.lifetime, t.widget.isSome⟩

structure ObsChannel where
  recs : List ObsRec
  hasRoot : Bool
deriving DecidableEq

def obsChannel (b : Nat) (w : World) : ObsChannel :=
  ⟨(w.toasts.filter (fun t => t.channel = b)).map (·.obsRec), !(rootsFor b w).isEmpty⟩

/-- Clock phase on one observable record. -/
def tickObs (δ : Nat) (o : ObsRec) : ObsRec :=
  if o.ui then { o with elapsed := o.elapsed + δ } else o

/-- Promotion of the first `k` pending records, in order. -/
def promoteObs : Nat → List ObsRec → List ObsRec
  | _, [] => []
  | k, o :: rest =>
    if o.ui then o :: promoteObs k rest
    else
      match k with
      | 0 => o :: promoteObs 0 rest
      | k1 + 1 => { o with ui := true } :: promoteObs k1 rest

/-- Denotation of one tick of a channel's system chain (no dismiss input) on
the channel's observable state. -/
def obsTick (maxv δ : Nat) (s : ObsChannel) : ObsChannel :=
  if s.recs.length = 0 then ⟨s.recs.map (tickObs δ), false⟩
  else
    ⟨promoteObs (maxv - s.recs.countP (fun o => o.ui)) (s.recs.map (tickObs δ)), true⟩

/-- Events carrying no dismiss-button activation. -/
def Event.noDismiss : Event → Prop
  | .tick _ _ pressed => pressed = []
  | .submit _ _ => True

/-- Modelled from the spec's words (§5), for comparison with the pipeline the
source registers: the per-tick phases in the order the spec states them —
container teardown check, then admission/promotion, then clock advance, then
dismissal processing. -/
def specOrderChannelTick (cfg : Config) (c δ : Nat) (pressed : List Nat) (w : World) : World :=
  handle_dismiss_toast_buttons pressed
    (tick_active_toasts c δ
      (spawn_toasts cfg c
        (despawn_toast_root c w)))

/-- The entity ids owned by a toast record: the record entity itself plus, if
promoted, its widget subtree (dismiss button, dismiss text, message text). -/
def ToastEntity.entIds (t : ToastEntity) : List Nat :=
  t.id ::
    (match t.widget with
      | some g => [g.buttonId, g.dismissTextId, g.textId]
      | none => [])

/-- Modelled from the spec: the result-to-notification adapter
(`anyhow_alert` / `AlertsPlugin` of the crate root are not among the sources
under review; §4.5 of the spec gives their contract, and `examples/toasts.rs`
shows the call site).  It wraps a fallible outcome: a success passes through
unchanged and emits no notification requests; a collection of failures emits
one request per failure, in collection order, with the failure's display
form as message text; no failure value reaches the caller. -/
def anyhow_alert {α ε : Type} (display : ε → String) :
    Except (List ε) α → Option α × List String
  | Except.ok a => (some a, [])
  | Except.error errs => (none, errs.map display)

/-! General list facts used below. -/

theorem countP_disj_le {α : Type} (p q : α → Bool) (l : List α) :
    l.countP (fun a => p a || q a) ≤ l.countP p + l.countP q := by
  induction l with
  | nil => simp
  | cons a l ih =>
    simp only [List.countP_cons]
    cases hp : p a <;> cases hq : q a <;> simp [hp, hq] <;> omega

theorem countP_key_eq_le_one {α : Type} (f : α → Nat) (i : Nat) (l : List α)
    (h : (l.map f).Nodup) : l.countP (fun a => f a = i) ≤ 1 := by
  induction l with
  | nil => simp
  | cons a l ih =>
    simp only [List.map_cons, List.nodup_cons] at h
    simp only [List.countP_cons]
    by_cases ha : f a = i
    · have hz : l.countP (fun a => f a = i) = 0 := by
        refine List.countP_eq_zero.mpr ?_
        intro b hb hbi
        exact h.1 (ha ▸ (by simpa using hbi) ▸ List.mem_map_of_mem f hb)
      simp [ha, hz]
    · simpa [ha] using ih h.2

theorem countP_mem_key_le {α : Type} (f : α → Nat) (l : List α) (ids : List Nat)
    (h : (l.map f).Nodup) : l.countP (fun a => f a ∈ ids) ≤ ids.length := by
  induction ids with
  | nil => simp
  | cons i ids ih =>
    have step : l.countP (fun a => f a ∈ i :: ids)
        ≤ l.countP (fun a => f a = i) + l.countP (fun a => f a ∈ ids) := by
      refine le_trans (le_of_eq (List.countP_congr ?_)) (countP_disj_le _ _ l)
      intro a _
      simp [List.mem_cons]
    calc l.countP (fun a => f a ∈ i :: ids)
        ≤ l.countP (fun a => f a = i) + l.countP (fun a => f a ∈ ids) := step
      _ ≤ 1 + ids.length := Nat.add_le_add (countP_key_eq_le_one f i l h) ih
      _ = (i :: ids).length := by simp [Nat.add_comm]

theorem filter_mem_key_of_sublist {α : Type} (f : α → Nat) {s l : List α}
    (hs : s.Sublist l) (h : (l.map f).Nodup) :
    l.filter (fun a => f a ∈ s.map f) = s := by
  induction hs with
  | slnil => simp
  | @cons l₁ l₂ a hsub ih =>
    simp only [List.map_cons, List.nodup_cons] at h
    have ha : f a ∉ l₁.map f := fun hmem => h.1 ((hsub.map f).mem hmem)
    rw [List.filter_cons_of_neg (by simpa using ha)]
    exact ih h.2
  | @cons₂ l₁ l₂ a hsub ih =>
    simp only [List.map_cons, List.nodup_cons] at h
    rw [List.filter_cons_of_pos (by simp)]
    congr 1
    have hcong : ∀ x ∈ l₂, (decide (f x ∈ (a :: l₁).map f)) = (decide (f x ∈ l₁.map f)) := by
      intro x hx
      have hxa : ¬f x = f a := fun hxa => h.1 (hxa ▸ List.mem_map_of_mem f hx)
      simp [List.mem_cons, hxa]
    rw [List.filter_congr hcong]
    exact ih h.2

theorem filter_not_mem_take_key {α : Type} (f : α → Nat) (s : List α) (k : Nat)
    (h : (s.map f).Nodup) :
    s.filter (fun a => ¬f a ∈ (s.take k).map f) = s.drop k := by
  induction s generalizing k with
  | nil => simp
  | cons a s ih =>
    simp only [List.map_cons, List.nodup_cons] at h
    cases k with
    | zero => simp
    | succ k =>
      simp only [List.take_succ_cons, List.map_cons, List.drop_succ_cons]
      rw [List.filter_cons_of_neg (by simp)]
      have hcong : ∀ x ∈ s,
          (decide (¬f x ∈ f a :: (s.take k).map f)) = (decide (¬f x ∈ (s.take k).map f)) := by
        intro x hx
        have hxa : ¬f x = f a := fun hxa => h.1 (hxa ▸ List.mem_map_of_mem f hx)
        simp [List.mem_cons, hxa]
      rw [List.filter_congr hcong]
      exact ih k h.2

/-! Structural facts about the four systems. -/

theorem tickToast_eq (c δ : Nat) (t : ToastEntity) :
    tickToast c δ t =
      if t.channel = c ∧ t.widget.isSome then { t with elapsed := t.elapsed + δ } else t := by
  unfold tickToast
  by_cases h : t.channel = c ∧ t.widget.isSome <;> simp [h]

theorem tickToast_obs (c δ : Nat) (t : ToastEntity) :
    (tickToast c δ t).obs =
      ⟨t.id, t.channel, t.message,
        if t.channel = c ∧ t.widget.isSome then t.elapsed + δ else t.elapsed,
        t.lifetime, t.widget.isSome⟩ := by
  rw [tickToast_eq]
  by_cases h : t.channel = c ∧ t.widget.isSome <;> simp [h, ToastEntity.obs]

theorem tickToast_widget (c δ : Nat) (t : ToastEntity) :
    (tickToast c δ t).widget = t.widget := by
  rw [tickToast_eq]; by_cases h : t.channel = c ∧ t.widget.isSome <;> simp [h]

theorem tickToast_id (c δ : Nat) (t : ToastEntity) : (tickToast c δ t).id = t.id := by
  rw [tickToast_eq]; by_cases h : t.channel = c ∧ t.widget.isSome <;> simp [h]

theorem tickToast_channel (c δ : Nat) (t : ToastEntity) :
    (tickToast c δ t).channel = t.channel := by
  rw [tickToast_eq]; by_cases h : t.channel = c ∧ t.widget.isSome <;> simp [h]

theorem tick_roots (c δ : Nat) (w : World) :
    (tick_active_toasts c δ w).roots = w.roots := rfl

theorem tick_nextId (c δ : Nat) (w : World) :
    (tick_active_toasts c δ w).nextId = w.nextId := rfl

theorem tick_toasts_obs (c δ : Nat) (w : World) :
    (tick_active_toasts c δ w).toasts.map (·.obs) =
      w.toasts.map (fun t =>
        ⟨t.id, t.channel, t.message,
          if t.channel = c ∧ t.widget.isSome then t.elapsed + δ else t.elapsed,
          t.lifetime, t.widget.isSome⟩) := by
  show (w.toasts.map (tickToast c δ)).map (·.obs) = _
  rw [List.map_map]
  exact List.map_congr_left (fun t _ => tickToast_obs c δ t)

theorem despawn_toasts (c : Nat) (w : World) :
    (despawn_toast_root c w).toasts = w.toasts := by
  unfold despawn_toast_root
  repeat' split
  all_goals rfl

theorem despawn_nextId (c : Nat) (w : World) :
    (despawn_toast_root c w).nextId = w.nextId := by
  unfold despawn_toast_root
  repeat' split
  all_goals rfl

theorem despawn_of_nonempty (c : Nat) (w : World)
    (h : ¬(toastsToSpawn c w).length + (spawnedToasts c w).length = 0) :
    despawn_toast_root c w = w := by
  unfold despawn_toast_root
  rw [if_neg h]

theorem queryHead_eq_some {l : List ToastUiRoot} {r : ToastUiRoot}
    (h : queryHead l = some r) : l = [r] := by
  match l with
  | [] => simp [queryHead] at h
  | [x] =>
    simp only [queryHead, Option.some.injEq] at h
    simp [h]
  | x :: y :: rest => simp [queryHead] at h

theorem promoteAll_roots (w : World) (ids : List Nat) :
    (promoteAll w ids).roots = w.roots := by
  induction ids generalizing w with
  | nil => rfl
  | cons i ids ih => simpa [promoteAll] using ih (promoteToast w i)

theorem promoteAll_nextId_le (w : World) (ids : List Nat) :
    w.nextId ≤ (promoteAll w ids).nextId := by
  induction ids generalizing w with
  | nil => exact le_refl _
  | cons i ids ih =>
    calc w.nextId ≤ (promoteToast w i).nextId := by simp [promoteToast]
      _ ≤ _ := ih (promoteToast w i)

theorem promoteAll_toasts_obs (w : World) (ids : List Nat) :
    (promoteAll w ids).toasts.map (·.obs) =
      w.toasts.map (fun t =>
        ⟨t.id, t.channel, t.message, t.elapsed, t.lifetime,
          t.widget.isSome || decide (t.id ∈ ids)⟩) := by
  induction ids generalizing w with
  | nil => exact List.map_congr_left (fun t _ => by simp [ToastEntity.obs])
  | cons i ids ih =>
    show (promoteAll (promoteToast w i) ids).toasts.map (·.obs) = _
    rw [ih (promoteToast w i)]
    show (w.toasts.map _).map _ = _
    rw [List.map_map]
    refine List.map_congr_left (fun t _ => ?_)
    by_cases hti : t.id = i
    · simp [Function.comp, hti, List.mem_cons]
    · simp [Function.comp, hti, List.mem_cons]

theorem tickToast_message (c δ : Nat) (t : ToastEntity) :
    (tickToast c δ t).message = t.message := by
  rw [tickToast_eq]; by_cases h : t.channel = c ∧ t.widget.isSome <;> simp [h]

theorem tickToast_lifetime (c δ : Nat) (t : ToastEntity) :
    (tickToast c δ t).lifetime = t.lifetime := by
  rw [tickToast_eq]; by_cases h : t.channel = c ∧ t.widget.isSome <;> simp [h]

theorem tickToast_elapsed (c δ : Nat) (t : ToastEntity) :
    (tickToast c δ t).elapsed =
      if t.channel = c ∧ t.widget.isSome then t.elapsed + δ else t.elapsed := by
  rw [tickToast_eq]; by_cases h : t.channel = c ∧ t.widget.isSome <;> simp [h]

theorem spawn_of_empty (cfg : Config) (c : Nat) (w : World)
    (h : (toastsToSpawn c w).length + (spawnedToasts c w).length = 0) :
    spawn_toasts cfg c w = w := by
  unfold spawn_toasts; rw [if_pos h]

theorem promotedIds_of_empty (cfg : Config) (c : Nat) (w : World)
    (h : (toastsToSpawn c w).length + (spawnedToasts c w).length = 0) :
    promotedIds cfg c w = [] := by
  have hp : toastsToSpawn c w = [] := List.length_eq_zero.mp (by omega)
  simp [promotedIds, hp]

theorem spawn_toasts_toasts_obs (cfg : Config) (c : Nat) (w : World) :
    (spawn_toasts cfg c w).toasts.map (·.obs) =
      w.toasts.map (fun t =>
        ⟨t.id, t.channel, t.message, t.elapsed, t.lifetime,
          t.widget.isSome || decide (t.id ∈ promotedIds cfg c w)⟩) := by
  unfold spawn_toasts
  by_cases h : (toastsToSpawn c w).length + (spawnedToasts c w).length = 0
  · rw [if_pos h, promotedIds_of_empty cfg c w h]
    exact List.map_congr_left (fun t _ => by simp [ToastEntity.obs])
  · rw [if_neg h, promoteAll_toasts_obs]
    by_cases hr : (rootsFor c w).isEmpty <;> simp [hr]

theorem spawn_roots_of_nonempty (cfg : Config) (c : Nat) (w : World)
    (h : ¬(toastsToSpawn c w).length + (spawnedToasts c w).length = 0) :
    (spawn_toasts cfg c w).roots =
      if (rootsFor c w).isEmpty then w.roots ++ [⟨w.nextId, c⟩] else w.roots := by
  unfold spawn_toasts
  rw [if_neg h, promoteAll_roots]
  by_cases hr : (rootsFor c w).isEmpty <;> simp [hr]

theorem spawn_nextId_le (cfg : Config) (c : Nat) (w : World) :
    w.nextId ≤ (spawn_toasts cfg c w).nextId := by
  unfold spawn_toasts
  by_cases h : (toastsToSpawn c w).length + (spawnedToasts c w).length = 0
  · rw [if_pos h]
  · rw [if_neg h]
    refine le_trans ?_ (promoteAll_nextId_le _ _)
    by_cases hr : (rootsFor c w).isEmpty <;> simp [hr]

theorem rootsFor_filter (c : Nat) (w : World) (q : ToastUiRoot → Bool) :
    rootsFor c { w with roots := w.roots.filter q } = (rootsFor c w).filter q := by
  unfold rootsFor
  exact List.filter_comm _ _ _

theorem despawn_roots_sublist (c : Nat) (w : World) :
    (despawn_toast_root c w).roots.Sublist w.roots := by
  unfold despawn_toast_root
  repeat' split
  any_goals exact List.Sublist.refl _
  exact List.filter_sublist _

theorem despawn_rootsFor_self (c : Nat) (w : World)
    (h0 : (toastsToSpawn c w).length + (spawnedToasts c w).length = 0)
    (h1 : (rootsFor c w).length ≤ 1) :
    rootsFor c (despawn_toast_root c w) = [] := by
  unfold despawn_toast_root
  rw [if_pos h0]
  by_cases hr : (rootsFor c w).isEmpty
  · rw [if_pos hr]
    exact List.isEmpty_iff.mp hr
  · rw [if_neg hr]
    obtain ⟨r, hl⟩ : ∃ r, rootsFor c w = [r] := by
      match he : rootsFor c w with
      | [] => rw [he] at hr; simp at hr
      | [r] => exact ⟨r, rfl⟩
      | x :: y :: rest => rw [he] at h1; simp at h1
    rw [hl]
    show rootsFor c { w with roots := w.roots.filter _ } = []
    rw [rootsFor_filter, hl]
    simp [queryHead]

theorem despawn_rootsFor_other (c' c : Nat) (w : World) (hne : ¬c' = c)
    (hnid : (w.roots.map (·.id)).Nodup) :
    rootsFor c' (despawn_toast_root c w) = rootsFor c' w := by
  unfold despawn_toast_root
  by_cases h0 : (toastsToSpawn c w).length + (spawnedToasts c w).length = 0
  · rw [if_pos h0]
    by_cases hr : (rootsFor c w).isEmpty
    · rw [if_pos hr]
    · rw [if_neg hr]
      cases hq : queryHead (rootsFor c w) with
      | none => rfl
      | some r =>
        have hl := queryHead_eq_some hq
        have hrmem : r ∈ w.roots := List.mem_of_mem_filter (hl ▸ List.mem_singleton_self r)
        have hrc : r.channel = c := by
          have : r ∈ rootsFor c w := hl ▸ List.mem_singleton_self r
          simpa using List.of_mem_filter this
        show rootsFor c' { w with roots := w.roots.filter _ } = _
        rw [rootsFor_filter]
        refine List.filter_eq_self.mpr (fun x hx => ?_)
        have hxmem : x ∈ w.roots := List.mem_of_mem_filter hx
        have hxc : x.channel = c' := by simpa using List.of_mem_filter hx
        have : ¬x.id = r.id := fun he => by
          have hxr := List.inj_on_of_nodup_map hnid hxmem hrmem he
          exact hne (by rw [← hxc, hxr, hrc])
        simpa using this
  · rw [if_neg h0]

theorem dismiss_roots (pressed : List Nat) (w : World) :
    (handle_dismiss_toast_buttons pressed w).roots = w.roots := rfl

theorem dismiss_nextId (pressed : List Nat) (w : World) :
    (handle_dismiss_toast_buttons pressed w).nextId = w.nextId := rfl

theorem dismiss_toasts_sublist (pressed : List Nat) (w : World) :
    (handle_dismiss_toast_buttons pressed w).toasts.Sublist w.toasts :=
  List.filter_sublist _

theorem mem_dismissedIds {pressed : List Nat} {w : World} {i : Nat} :
    i ∈ dismissedIds pressed w ↔
      ∃ t ∈ w.toasts, ∃ g, t.widget = some g ∧ g.buttonId ∈ pressed ∧ t.id = i := by
  unfold dismissedIds
  rw [List.mem_filterMap]
  constructor
  · rintro ⟨t, ht, hf⟩
    refine ⟨t, ht, ?_⟩
    cases hw : t.widget with
    | none => rw [hw] at hf; simp at hf
    | some g =>
      rw [hw] at hf
      have hf1 : (if g.buttonId ∈ pressed then some t.id else none) = some i := hf
      by_cases hb : g.buttonId ∈ pressed
      · rw [if_pos hb] at hf1
        exact ⟨g, rfl, hb, by injection hf1⟩
      · rw [if_neg hb] at hf1; simp at hf1
  · rintro ⟨t, ht, g, hg, hb, hid⟩
    refine ⟨t, ht, ?_⟩
    rw [hg]
    show (if g.buttonId ∈ pressed then some t.id else none) = some i
    rw [if_pos hb, hid]

theorem handle_dismiss_nil (w : World) : handle_dismiss_toast_buttons [] w = w := by
  have h : ∀ t ∈ w.toasts, (decide (¬t.id ∈ dismissedIds [] w)) = true := by
    intro t _
    have : ¬t.id ∈ dismissedIds [] w := by
      rw [mem_dismissedIds]
      rintro ⟨s, _, g, _, hb, _⟩
      simp at hb
    simpa using this
  show { w with toasts := _ } = w
  rw [List.filter_eq_self.mpr h]

/-- All three queue-mutating phases keep entity ids of the surviving toasts. -/
theorem promoteAll_ids (w : World) (ids : List Nat) :
    (promoteAll w ids).toasts.map (·.id) = w.toasts.map (·.id) := by
  have h := congrArg (List.map ObsToast.id) (promoteAll_toasts_obs w ids)
  simpa [List.map_map, Function.comp] using h

theorem spawn_ids (cfg : Config) (c : Nat) (w : World) :
    (spawn_toasts cfg c w).toasts.map (·.id) = w.toasts.map (·.id) := by
  have h := congrArg (List.map ObsToast.id) (spawn_toasts_toasts_obs cfg c w)
  simpa [List.map_map, Function.comp] using h

theorem tick_ids (c δ : Nat) (w : World) :
    (tick_active_toasts c δ w).toasts.map (·.id) = w.toasts.map (·.id) := by
  show (w.toasts.map (tickToast c δ)).map _ = _
  rw [List.map_map]
  exact List.map_congr_left (fun t _ => tickToast_id c δ t)

/-- Counts of the two toast queries, as `countP` over the world. -/
theorem promotedCount_eq_countP (c : Nat) (w : World) :
    promotedCount c w = w.toasts.countP (fun t => t.channel = c ∧ t.widget.isSome) := by
  simp [promotedCount, spawnedToasts, List.countP_eq_length_filter]

theorem pendingCount_eq_countP (c : Nat) (w : World) :
    pendingCount c w = w.toasts.countP (fun t => t.channel = c ∧ t.widget = none) := by
  simp [pendingCount, toastsToSpawn, List.countP_eq_length_filter]

theorem promotedCount_tick (c' c δ : Nat) (w : World) :
    promotedCount c' (tick_active_toasts c δ w) = promotedCount c' w := by
  rw [promotedCount_eq_countP, promotedCount_eq_countP]
  show (w.toasts.map (tickToast c δ)).countP _ = _
  rw [List.countP_map]
  exact List.countP_congr (fun t _ => by
    simp [Function.comp, tickToast_channel, tickToast_widget])

theorem pendingCount_tick (c' c δ : Nat) (w : World) :
    pendingCount c' (tick_active_toasts c δ w) = pendingCount c' w := by
  rw [pendingCount_eq_countP, pendingCount_eq_countP]
  show (w.toasts.map (tickToast c δ)).countP _ = _
  rw [List.countP_map]
  exact List.countP_congr (fun t _ => by
    simp [Function.comp, tickToast_channel, tickToast_widget])

theorem promotedCount_despawn (c' c : Nat) (w : World) :
    promotedCount c' (despawn_toast_root c w) = promotedCount c' w := by
  rw [promotedCount_eq_countP, promotedCount_eq_countP, despawn_toasts]

theorem pendingCount_despawn (c' c : Nat) (w : World) :
    pendingCount c' (despawn_toast_root c w) = pendingCount c' w := by
  rw [pendingCount_eq_countP, pendingCount_eq_countP, despawn_toasts]

/-- The first three phases of a tick, at the observable level: elapsed clocks
of the channel's visible toasts advance by `δ`, then the first
`max_visible - live` pending toasts of the channel gain a widget. -/
theorem phase3_toasts_obs (cfg : Config) (c δ : Nat) (w : World) :
    (spawn_toasts cfg c (despawn_toast_root c (tick_active_toasts c δ w))).toasts.map (·.obs) =
      w.toasts.map (fun t =>
        ⟨t.id, t.channel, t.message,
          if t.channel = c ∧ t.widget.isSome then t.elapsed + δ else t.elapsed,
          t.lifetime,
          t.widget.isSome ||
            decide (t.id ∈ promotedIds cfg c (despawn_toast_root c (tick_active_toasts c δ w)))⟩) := by
  rw [spawn_toasts_toasts_obs]
  have h2 : (despawn_toast_root c (tick_active_toasts c δ w)).toasts =
      w.toasts.map (tickToast c δ) := by rw [despawn_toasts]; rfl
  rw [h2, List.map_map]
  refine List.map_congr_left (fun t _ => ?_)
  simp only [Function.comp, tickToast_id, tickToast_channel, tickToast_message,
    tickToast_elapsed, tickToast_lifetime, tickToast_widget]

/-- Filtered queries commute with the observable projection. -/
theorem spawnedToasts_map_obs (c : Nat) (w : World) :
    (spawnedToasts c w).map (·.obs) =
      (w.toasts.map (·.obs)).filter (fun o => o.channel = c ∧ o.ui) := by
  unfold spawnedToasts
  rw [List.filter_map]
  exact congrArg (List.map _)
    (List.filter_congr (fun t _ => by simp [Function.comp, ToastEntity.obs])).symm

theorem toastsToSpawn_map_obs (c : Nat) (w : World) :
    (toastsToSpawn c w).map (·.obs) =
      (w.toasts.map (·.obs)).filter (fun o => o.channel = c ∧ o.ui = false) := by
  unfold toastsToSpawn
  rw [List.filter_map]
  refine congrArg (List.map _)
    (List.filter_congr (fun t _ => ?_)).symm
  cases hw : t.widget <;> simp [Function.comp, ToastEntity.obs, hw]

/-- The pending queue of channel `c` is untouched by the clock phase (the
query filters on `With<ToastUi>`) and the teardown phase (which only touches
the root). -/
theorem toastsToSpawn_phase2 (c δ : Nat) (w : World) :
    toastsToSpawn c (despawn_toast_root c (tick_active_toasts c δ w)) = toastsToSpawn c w := by
  have h : toastsToSpawn c (despawn_toast_root c (tick_active_toasts c δ w))
      = toastsToSpawn c (tick_active_toasts c δ w) := by
    unfold toastsToSpawn
    rw [despawn_toasts]
  rw [h]
  unfold toastsToSpawn
  show (w.toasts.map (tickToast c δ)).filter _ = _
  rw [List.filter_map]
  have h1 : w.toasts.filter
        (fun t => (fun t => decide (t.channel = c ∧ t.widget = none)) (tickToast c δ t))
      = w.toasts.filter (fun t => t.channel = c ∧ t.widget = none) :=
    List.filter_congr (fun t _ => by simp [tickToast_channel, tickToast_widget])
  rw [show ((fun t => decide (t.channel = c ∧ t.widget = none)) ∘ tickToast c δ)
      = fun t => decide ((tickToast c δ t).channel = c ∧ (tickToast c δ t).widget = none) from rfl]
  rw [show (fun t => decide ((tickToast c δ t).channel = c ∧ (tickToast c δ t).widget = none))
      = fun t => decide (t.channel = c ∧ t.widget = none) by
    funext t; simp [tickToast_channel, tickToast_widget]]
  refine Eq.trans (List.map_congr_left (fun t ht => ?_)) (List.map_id _)
  have hpend : t.widget = none := by
    have := List.of_mem_filter ht
    simp at this
    exact this.2
  rw [tickToast_eq,
    if_neg (by rintro ⟨-, hsome⟩; rw [hpend] at hsome; simp at hsome)]
  rfl

theorem spawnedToasts_length_phase2 (c δ : Nat) (w : World) :
    (spawnedToasts c (despawn_toast_root c (tick_active_toasts c δ w))).length
      = (spawnedToasts c w).length := by
  have h1 := promotedCount_despawn c c (tick_active_toasts c δ w)
  have h2 := promotedCount_tick c c δ w
  simpa [promotedCount] using h1.trans h2

theorem promotedIds_phase2 (cfg : Config) (c δ : Nat) (w : World) :
    promotedIds cfg c (despawn_toast_root c (tick_active_toasts c δ w))
      = promotedIds cfg c w := by
  unfold promotedIds
  rw [toastsToSpawn_phase2, spawnedToasts_length_phase2]

/-- `phase3_toasts_obs` with the promoted-id snapshot expressed over the
start-of-tick state. -/
theorem phase3_toasts_obs_start (cfg : Config) (c δ : Nat) (w : World) :
    (spawn_toasts cfg c (despawn_toast_root c (tick_active_toasts c δ w))).toasts.map (·.obs) =
      w.toasts.map (fun t =>
        ⟨t.id, t.channel, t.message,
          if t.channel = c ∧ t.widget.isSome then t.elapsed + δ else t.elapsed,
          t.lifetime,
          t.widget.isSome || decide (t.id ∈ promotedIds cfg c w)⟩) := by
  rw [phase3_toasts_obs, promotedIds_phase2]

theorem filter_map_general {α β : Type} (g : α → β) (p : β → Bool) (l : List α) :
    (l.map g).filter p = (l.filter (fun a => p (g a))).map g := by
  rw [List.filter_map]
  rfl

/-- One tick on a channel with no live toasts: the visible set afterwards is
exactly the first `max_visible` pending toasts, promoted, in order. -/
theorem spawnedToasts_one_tick (cfg : Config) (c δ : Nat) (w : World)
    (hids : (w.toasts.map (fun t => t.id)).Nodup)
    (hlive : spawnedToasts c w = []) :
    (spawnedToasts c (channelTick cfg c δ [] w)).map (·.obs) =
      ((toastsToSpawn c w).take (cfg.maxToasts c)).map
        (fun t => ⟨t.id, t.channel, t.message, t.elapsed, t.lifetime, true⟩) := by
  have hct : channelTick cfg c δ [] w
      = spawn_toasts cfg c (despawn_toast_root c (tick_active_toasts c δ w)) := by
    unfold channelTick
    rw [handle_dismiss_nil]
  have hnp : ∀ t ∈ w.toasts, ¬(t.channel = c ∧ t.widget.isSome) := by
    intro t ht hcond
    have hmem : t ∈ spawnedToasts c w := List.mem_filter.mpr ⟨ht, by simpa using hcond⟩
    rw [hlive] at hmem
    simp at hmem
  have hids_eq : promotedIds cfg c w
      = ((toastsToSpawn c w).take (cfg.maxToasts c)).map (fun t => t.id) := by
    rw [promotedIds, hlive]
    simp
  have hsub : ((toastsToSpawn c w).take (cfg.maxToasts c)).Sublist w.toasts :=
    (List.take_sublist _ _).trans (List.filter_sublist _)
  have step1 : w.toasts.filter
        (fun a => a.id ∈ ((toastsToSpawn c w).take (cfg.maxToasts c)).map (fun t => t.id))
      = (toastsToSpawn c w).take (cfg.maxToasts c) := by
    have h := filter_mem_key_of_sublist (fun t : ToastEntity => t.id) hsub
      (by simpa using hids)
    simpa using h
  rw [hct, spawnedToasts_map_obs, phase3_toasts_obs_start, filter_map_general, hids_eq]
  have hcongr : ∀ t ∈ w.toasts,
      (decide ((⟨t.id, t.channel, t.message,
          if t.channel = c ∧ t.widget.isSome then t.elapsed + δ else t.elapsed,
          t.lifetime,
          t.widget.isSome ||
            decide (t.id ∈ ((toastsToSpawn c w).take (cfg.maxToasts c)).map (fun t => t.id))⟩
            : ObsToast).channel = c ∧
        (⟨t.id, t.channel, t.message,
          if t.channel = c ∧ t.widget.isSome then t.elapsed + δ else t.elapsed,
          t.lifetime,
          t.widget.isSome ||
            decide (t.id ∈ ((toastsToSpawn c w).take (cfg.maxToasts c)).map (fun t => t.id))⟩
            : ObsToast).ui = true))
      = decide (t.id ∈ ((toastsToSpawn c w).take (cfg.maxToasts c)).map (fun t => t.id)) := by
    intro t ht
    by_cases hc : t.channel = c
    · have hns : ¬t.widget.isSome := fun hs => hnp t ht ⟨hc, hs⟩
      simp [hc, hns]
    · have hnm : ¬t.id ∈ ((toastsToSpawn c w).take (cfg.maxToasts c)).map (fun t => t.id) := by
        intro hmem
        obtain ⟨u, hu, huid⟩ := List.mem_map.mp hmem
        have hut : u = t := List.inj_on_of_nodup_map (by simpa using hids)
          (hsub.subset hu) ht huid
        have : t.channel = c := by
          have := List.of_mem_filter (List.mem_of_mem_take (hut ▸ hu))
          simp at this
          exact this.1
        exact hc this
      simp [hc]
      rwa [← List.map_take]
  rw [List.filter_congr hcongr, step1]
  refine List.map_congr_left (fun t ht => ?_)
  have hprops := List.of_mem_filter (List.mem_of_mem_take ht)
  simp only [decide_eq_true_eq] at hprops
  have hmem : t.id ∈ ((toastsToSpawn c w).take (cfg.maxToasts c)).map (fun t => t.id) :=
    List.mem_map_of_mem _ ht
  simp [hprops.2]
  rwa [← List.map_take]

/-- One tick on a channel with no live toasts: the pending queue afterwards
is exactly the remainder beyond the first `max_visible`, unchanged and in
order. -/
theorem toastsToSpawn_one_tick (cfg : Config) (c δ : Nat) (w : World)
    (hids : (w.toasts.map (fun t => t.id)).Nodup)
    (hlive : spawnedToasts c w = []) :
    (toastsToSpawn c (channelTick cfg c δ [] w)).map (·.obs) =
      ((toastsToSpawn c w).drop (cfg.maxToasts c)).map (·.obs) := by
  have hct : channelTick cfg c δ [] w
      = spawn_toasts cfg c (despawn_toast_root c (tick_active_toasts c δ w)) := by
    unfold channelTick
    rw [handle_dismiss_nil]
  have hnp : ∀ t ∈ w.toasts, ¬(t.channel = c ∧ t.widget.isSome) := by
    intro t ht hcond
    have hmem : t ∈ spawnedToasts c w := List.mem_filter.mpr ⟨ht, by simpa using hcond⟩
    rw [hlive] at hmem
    simp at hmem
  have hids_eq : promotedIds cfg c w
      = ((toastsToSpawn c w).take (cfg.maxToasts c)).map (fun t => t.id) := by
    rw [promotedIds, hlive]
    simp
  have hpend_ids : ((toastsToSpawn c w).map (fun t => t.id)).Nodup :=
    List.Nodup.sublist ((List.filter_sublist _).map _) (by simpa using hids)
  rw [hct, toastsToSpawn_map_obs, phase3_toasts_obs_start, filter_map_general, hids_eq]
  have hcongr : ∀ t ∈ w.toasts,
      (decide ((⟨t.id, t.channel, t.message,
          if t.channel = c ∧ t.widget.isSome then t.elapsed + δ else t.elapsed,
          t.lifetime,
          t.widget.isSome ||
            decide (t.id ∈ ((toastsToSpawn c w).take (cfg.maxToasts c)).map (fun t => t.id))⟩
            : ObsToast).channel = c ∧
        (⟨t.id, t.channel, t.message,
          if t.channel = c ∧ t.widget.isSome then t.elapsed + δ else t.elapsed,
          t.lifetime,
          t.widget.isSome ||
            decide (t.id ∈ ((toastsToSpawn c w).take (cfg.maxToasts c)).map (fun t => t.id))⟩
            : ObsToast).ui = false))
      = ((decide (¬t.id ∈ ((toastsToSpawn c w).take (cfg.maxToasts c)).map (fun t => t.id)))
          && (decide (t.channel = c ∧ t.widget = none))) := by
    intro t ht
    by_cases hc : t.channel = c
    · have hns : ¬t.widget.isSome := fun hs => hnp t ht ⟨hc, hs⟩
      have hnone : t.widget = none := Option.not_isSome_iff_eq_none.mp hns
      by_cases hm : t.id ∈ ((toastsToSpawn c w).take (cfg.maxToasts c)).map (fun t => t.id)
      · simp [hc, hnone, hm]
      · simp [hc, hnone, hm]
    · simp [hc]
  rw [List.filter_congr hcongr, ← List.filter_filter]
  show ((toastsToSpawn c w).filter _).map _ = _
  rw [filter_not_mem_take_key (fun t => t.id) (toastsToSpawn c w) (cfg.maxToasts c) hpend_ids]
  refine List.map_congr_left (fun t ht => ?_)
  have htl : t ∈ toastsToSpawn c w := List.mem_of_mem_drop ht
  have hprops := List.of_mem_filter htl
  simp only [decide_eq_true_eq] at hprops
  have hnm : ¬t.id ∈ ((toastsToSpawn c w).take (cfg.maxToasts c)).map (fun t => t.id) := by
    intro hmem
    obtain ⟨u, hu, huid⟩ := List.mem_map.mp hmem
    have hut : u = t :=
      List.inj_on_of_nodup_map hpend_ids (List.mem_of_mem_take hu) htl huid
    have hsnd : (toastsToSpawn c w).Nodup := List.Nodup.of_map _ hpend_ids
    have hd : ((toastsToSpawn c w).take (cfg.maxToasts c)).Disjoint
        ((toastsToSpawn c w).drop (cfg.maxToasts c)) := by
      have hnd := hsnd
      rw [← List.take_append_drop (cfg.maxToasts c) (toastsToSpawn c w)] at hnd
      exact (List.nodup_append.mp hnd).2.2
    exact hd (hut ▸ hu) ht
  simp [ToastEntity.obs, hprops.2]
  rwa [← List.map_take]

theorem Inv_start : World.start.Inv := by
  refine ⟨?_, ?_, ?_, ?_, ?_⟩ <;> simp [World.start]

theorem rootsFor_length_le_one {w : World}
    (h : (w.roots.map (fun r => r.channel)).Nodup) (c : Nat) :
    (rootsFor c w).length ≤ 1 := by
  have hcnt := countP_key_eq_le_one (fun r : ToastUiRoot => r.channel) c w.roots h
  rw [List.countP_eq_length_filter] at hcnt
  simpa [rootsFor] using hcnt

theorem tick_Inv (c δ : Nat) (w : World) (h : w.Inv) :
    (tick_active_toasts c δ w).Inv := by
  obtain ⟨h1, h2, h3, h4, h5⟩ := h
  refine ⟨?_, h2, h3, ?_, h5⟩
  · rw [tick_ids]; exact h1
  · intro t ht
    obtain ⟨u, hu, rfl⟩ := List.mem_map.mp ht
    rw [tick_nextId, tickToast_id]
    exact h4 u hu

theorem despawn_Inv (c : Nat) (w : World) (h : w.Inv) :
    (despawn_toast_root c w).Inv := by
  obtain ⟨h1, h2, h3, h4, h5⟩ := h
  have hsub := despawn_roots_sublist c w
  refine ⟨?_, ?_, ?_, ?_, ?_⟩
  · rw [despawn_toasts]; exact h1
  · exact List.Nodup.sublist (hsub.map _) h2
  · exact List.Nodup.sublist (hsub.map _) h3
  · intro t ht
    rw [despawn_nextId]
    exact h4 t (by rwa [despawn_toasts c w] at ht)
  · intro r hr
    rw [despawn_nextId]
    exact h5 r (hsub.subset hr)

theorem spawn_nextId_of_root_spawn (cfg : Config) (c : Nat) (w : World)
    (h0 : ¬(toastsToSpawn c w).length + (spawnedToasts c w).length = 0)
    (hr : (rootsFor c w).isEmpty) :
    w.nextId + 1 ≤ (spawn_toasts cfg c w).nextId := by
  unfold spawn_toasts
  rw [if_neg h0]
  refine le_trans ?_ (promoteAll_nextId_le _ _)
  simp [hr]

theorem spawn_Inv (cfg : Config) (c : Nat) (w : World) (h : w.Inv) :
    (spawn_toasts cfg c w).Inv := by
  obtain ⟨h1, h2, h3, h4, h5⟩ := h
  by_cases h0 : (toastsToSpawn c w).length + (spawnedToasts c w).length = 0
  · rw [spawn_of_empty cfg c w h0]
    exact ⟨h1, h2, h3, h4, h5⟩
  · have hroots := spawn_roots_of_nonempty cfg c w h0
    have hnext := spawn_nextId_le cfg c w
    have hbound : ∀ t ∈ (spawn_toasts cfg c w).toasts, t.id < (spawn_toasts cfg c w).nextId := by
      intro t ht
      have hm : t.id ∈ (spawn_toasts cfg c w).toasts.map (fun t => t.id) :=
        List.mem_map_of_mem _ ht
      rw [spawn_ids] at hm
      obtain ⟨u, hu, hue⟩ := List.mem_map.mp hm
      rw [← hue]
      exact lt_of_lt_of_le (h4 u hu) hnext
    refine ⟨?_, ?_, ?_, hbound, ?_⟩
    · rw [spawn_ids]; exact h1
    · rw [hroots]
      by_cases hr : (rootsFor c w).isEmpty
      · rw [if_pos hr, List.map_append, List.nodup_append]
        refine ⟨h2, by simp, ?_⟩
        intro a ha hb
        simp at hb
        obtain ⟨r, hrm, hre⟩ := List.mem_map.mp ha
        have := h5 r hrm
        omega
      · rw [if_neg hr]; exact h2
    · rw [hroots]
      by_cases hr : (rootsFor c w).isEmpty
      · rw [if_pos hr, List.map_append, List.nodup_append]
        refine ⟨h3, by simp, ?_⟩
        intro a ha hb
        simp at hb
        obtain ⟨r, hrm, hre⟩ := List.mem_map.mp ha
        have hempty : rootsFor c w = [] := List.isEmpty_iff.mp hr
        have : ¬r.channel = c := by
          intro hrc
          have : r ∈ rootsFor c w := List.mem_filter.mpr ⟨hrm, by simpa using hrc⟩
          rw [hempty] at this
          simp at this
        rw [hre] at this
        exact this hb
      · rw [if_neg hr]; exact h3
    · intro r hr2
      rw [hroots] at hr2
      by_cases hr : (rootsFor c w).isEmpty
      · rw [if_pos hr] at hr2
        rcases List.mem_append.mp hr2 with hold | hnew
        · exact lt_of_lt_of_le (h5 r hold) hnext
        · have hre : r = ⟨w.nextId, c⟩ := by simpa using hnew
          rw [hre]
          exact lt_of_lt_of_le (Nat.lt_succ_self _) (spawn_nextId_of_root_spawn cfg c w h0 hr)
      · rw [if_neg hr] at hr2
        exact lt_of_lt_of_le (h5 r hr2) hnext

theorem dismiss_Inv (pressed : List Nat) (w : World) (h : w.Inv) :
    (handle_dismiss_toast_buttons pressed w).Inv := by
  obtain ⟨h1, h2, h3, h4, h5⟩ := h
  have hsub := dismiss_toasts_sublist pressed w
  exact ⟨List.Nodup.sublist (hsub.map _) h1, h2, h3,
    fun t ht => h4 t (hsub.subset ht), h5⟩

theorem channelTick_Inv (cfg : Config) (c δ : Nat) (pressed : List Nat) (w : World)
    (h : w.Inv) : (channelTick cfg c δ pressed w).Inv :=
  dismiss_Inv _ _ (spawn_Inv _ _ _ (despawn_Inv _ _ (tick_Inv _ _ _ h)))

theorem custom_toast_Inv (cfg : Config) (c : Nat) (msgs : List String) (w : World)
    (h : w.Inv) : (custom_toast cfg c msgs w).Inv := by
  induction msgs generalizing w with
  | nil => exact h
  | cons m msgs ih =>
    have hstep : custom_toast cfg c (m :: msgs) w
        = custom_toast cfg c msgs
            { w with
              toasts := w.toasts ++ [⟨w.nextId, c, m, 0, cfg.toastLifetime c, none⟩],
              nextId := w.nextId + 1 } := rfl
    rw [hstep]
    refine ih _ ?_
    obtain ⟨h1, h2, h3, h4, h5⟩ := h
    refine ⟨?_, h2, h3, ?_, ?_⟩
    · rw [List.map_append, List.nodup_append]
      refine ⟨h1, by simp, ?_⟩
      intro a ha hb
      simp at hb
      obtain ⟨u, hu, hue⟩ := List.mem_map.mp ha
      have := h4 u hu
      omega
    · intro t ht
      rcases List.mem_append.mp ht with hold | hnew
      · exact Nat.lt_succ_of_lt (h4 t hold)
      · have : t = ⟨w.nextId, c, m, 0, cfg.toastLifetime c, none⟩ := by simpa using hnew
        rw [this]
        exact Nat.lt_succ_self _
    · intro r hr
      exact Nat.lt_succ_of_lt (h5 r hr)

theorem stepEvent_Inv (cfg : Config) (w : World) (ev : Event) (h : w.Inv) :
    (stepEvent cfg w ev).Inv := by
  cases ev with
  | submit c msgs => exact custom_toast_Inv cfg c msgs w h
  | tick cs δ pressed =>
    show (cs.foldl (fun acc c => channelTick cfg c δ pressed acc) w).Inv
    induction cs generalizing w with
    | nil => exact h
    | cons c cs ih => exact ih _ (channelTick_Inv cfg c δ pressed w h)

theorem runTrace_Inv (cfg : Config) (evs : List Event) (w : World) (h : w.Inv) :
    (runTrace cfg w evs).Inv := by
  induction evs generalizing w with
  | nil => exact h
  | cons ev evs ih => exact ih _ (stepEvent_Inv cfg w ev h)

theorem channelTick_nextId_le (cfg : Config) (c δ : Nat) (pressed : List Nat) (w : World) :
    w.nextId ≤ (channelTick cfg c δ pressed w).nextId := by
  show w.nextId ≤ (handle_dismiss_toast_buttons pressed _).nextId
  rw [dismiss_nextId]
  calc w.nextId = (tick_active_toasts c δ w).nextId := (tick_nextId c δ w).symm
    _ = (despawn_toast_root c (tick_active_toasts c δ w)).nextId := (despawn_nextId _ _).symm
    _ ≤ _ := spawn_nextId_le _ _ _

theorem DeadId_channelTick (cfg : Config) (c δ : Nat) (pressed : List Nat) (i : Nat)
    (w : World) (h : DeadId i w) : DeadId i (channelTick cfg c δ pressed w) := by
  obtain ⟨h1, h2⟩ := h
  constructor
  · intro hmem
    obtain ⟨t, ht, hte⟩ := List.mem_map.mp hmem
    have ht3 : t ∈ (spawn_toasts cfg c
        (despawn_toast_root c (tick_active_toasts c δ w))).toasts :=
      (dismiss_toasts_sublist _ _).subset ht
    have hm : i ∈ (spawn_toasts cfg c
        (despawn_toast_root c (tick_active_toasts c δ w))).toasts.map (fun t => t.id) :=
      hte ▸ List.mem_map_of_mem _ ht3
    rw [spawn_ids] at hm
    rw [show (despawn_toast_root c (tick_active_toasts c δ w)).toasts
        = (tick_active_toasts c δ w).toasts from despawn_toasts _ _] at hm
    rw [tick_ids] at hm
    exact h1 hm
  · exact lt_of_lt_of_le h2 (channelTick_nextId_le cfg c δ pressed w)

theorem DeadId_custom_toast (cfg : Config) (c : Nat) (msgs : List String) (i : Nat)
    (w : World) (h : DeadId i w) : DeadId i (custom_toast cfg c msgs w) := by
  induction msgs generalizing w with
  | nil => exact h
  | cons m msgs ih =>
    refine ih _ ?_
    obtain ⟨h1, h2⟩ := h
    constructor
    · intro hmem
      rw [List.map_append] at hmem
      rcases List.mem_append.mp hmem with hold | hnew
      · exact h1 hold
      · simp at hnew
        omega
    · exact Nat.lt_succ_of_lt h2

theorem DeadId_stepEvent (cfg : Config) (i : Nat) (w : World) (ev : Event)
    (h : DeadId i w) : DeadId i (stepEvent cfg w ev) := by
  cases ev with
  | submit c msgs => exact DeadId_custom_toast cfg c msgs i w h
  | tick cs δ pressed =>
    show DeadId i (cs.foldl (fun acc c => channelTick cfg c δ pressed acc) w)
    induction cs generalizing w with
    | nil => exact h
    | cons c cs ih => exact ih _ (DeadId_channelTick cfg c δ pressed i w h)

theorem DeadId_runTrace (cfg : Config) (i : Nat) (w : World) (evs : List Event)
    (h : DeadId i w) : DeadId i (runTrace cfg w evs) := by
  induction evs generalizing w with
  | nil => exact h
  | cons ev evs ih => exact ih _ (DeadId_stepEvent cfg i w ev h)

theorem promoteObs_zero (l : List ObsRec) : promoteObs 0 l = l := by
  induction l with
  | nil => rfl
  | cons o rest ih =>
    by_cases h : o.ui = true <;> simp [promoteObs, h, ih]

theorem countP_widget_split (m : List ToastEntity) :
    m.countP (fun t => t.widget = none) + m.countP (fun t => t.widget.isSome) = m.length := by
  induction m with
  | nil => rfl
  | cons t rest ih =>
    simp only [List.countP_cons, List.length_cons]
    cases hw : t.widget <;> simp [hw] <;> omega

/-- Marking as visible the entities whose id is among the first `k` pending
ids is, at the observable level, `promoteObs k`. -/
theorem promoteObs_mem (E : ToastEntity → Nat) (m : List ToastEntity) (k : Nat)
    (hnd : (m.map (fun t => t.id)).Nodup) :
    m.map (fun t => (⟨t.message, E t, t.lifetime,
        t.widget.isSome ||
          decide (t.id ∈ ((m.filter (fun t => t.widget = none)).take k).map (fun t => t.id))⟩
        : ObsRec))
      = promoteObs k (m.map (fun t =>
          (⟨t.message, E t, t.lifetime, t.widget.isSome⟩ : ObsRec))) := by
  induction m generalizing k with
  | nil => rfl
  | cons t rest ih =>
    simp only [List.map_cons, List.nodup_cons] at hnd
    by_cases hw : t.widget.isSome
    · have hnn : ¬t.widget = none := fun h => by rw [h] at hw; simp at hw
      have hf : (t :: rest).filter (fun t => t.widget = none)
          = rest.filter (fun t => t.widget = none) := by
        rw [List.filter_cons_of_neg (by simpa using hnn)]
      rw [List.map_cons, List.map_cons, hf]
      rw [show promoteObs k ((⟨t.message, E t, t.lifetime, t.widget.isSome⟩ : ObsRec) ::
          rest.map (fun t => (⟨t.message, E t, t.lifetime, t.widget.isSome⟩ : ObsRec)))
        = (⟨t.message, E t, t.lifetime, t.widget.isSome⟩ : ObsRec) ::
          promoteObs k (rest.map (fun t =>
            (⟨t.message, E t, t.lifetime, t.widget.isSome⟩ : ObsRec))) from by
        simp [promoteObs, hw]]
      congr 1
      · simp [hw]
      · exact ih k hnd.2
    · have hnone : t.widget = none := Option.not_isSome_iff_eq_none.mp hw
      have hf : (t :: rest).filter (fun t => t.widget = none)
          = t :: rest.filter (fun t => t.widget = none) := by
        rw [List.filter_cons_of_pos (by simp [hnone])]
      cases k with
      | zero =>
        rw [promoteObs_zero]
        refine List.map_congr_left (fun u _ => ?_)
        simp
      | succ k1 =>
        rw [hf, List.take_succ_cons, List.map_cons, List.map_cons, List.map_cons]
        rw [show promoteObs (k1 + 1) ((⟨t.message, E t, t.lifetime, t.widget.isSome⟩ : ObsRec) ::
            rest.map (fun t => (⟨t.message, E t, t.lifetime, t.widget.isSome⟩ : ObsRec)))
          = (⟨t.message, E t, t.lifetime, true⟩ : ObsRec) ::
            promoteObs k1 (rest.map (fun t =>
              (⟨t.message, E t, t.lifetime, t.widget.isSome⟩ : ObsRec))) from by
          simp [promoteObs, hnone]]
        congr 1
        · simp
        · rw [List.map_congr_left (fun u hu => ?_), ih k1 hnd.2]
          have hne : ¬u.id = t.id := by
            intro he
            exact hnd.1 (he ▸ List.mem_map_of_mem (fun t => t.id) hu)
          simp [List.mem_cons, hne]

theorem rootsFor_tick (b c δ : Nat) (w : World) :
    rootsFor b (tick_active_toasts c δ w) = rootsFor b w := by
  unfold rootsFor
  rw [tick_roots]

theorem rootsFor_dismiss (b : Nat) (pressed : List Nat) (w : World) :
    rootsFor b (handle_dismiss_toast_buttons pressed w) = rootsFor b w := rfl

/-- Bridge: the channel-filtered record view factors through the full
per-toast observable. -/
theorem filter_channel_map_obsRec (b : Nat) (l : List ToastEntity) :
    (l.filter (fun t => t.channel = b)).map ToastEntity.obsRec
      = ((l.map (·.obs)).filter (fun o => o.channel = b)).map
          (fun o => (⟨o.message, o.elapsed, o.lifetime, o.ui⟩ : ObsRec)) := by
  rw [filter_map_general, List.map_map]
  rfl

/-- A tick of channel `c`'s chain (without dismiss input) leaves every other
channel's observable state unchanged. -/
theorem obsChannel_channelTick_other (cfg : Config) (b c δ : Nat) (w : World)
    (hne : ¬c = b) (hInv : w.Inv) :
    obsChannel b (channelTick cfg c δ [] w) = obsChannel b w := by
  have hct : channelTick cfg c δ [] w
      = spawn_toasts cfg c (despawn_toast_root c (tick_active_toasts c δ w)) := by
    unfold channelTick
    rw [handle_dismiss_nil]
  have hrecs : ((channelTick cfg c δ [] w).toasts.filter (fun t => t.channel = b)).map
        ToastEntity.obsRec
      = (w.toasts.filter (fun t => t.channel = b)).map ToastEntity.obsRec := by
    rw [hct, filter_channel_map_obsRec, phase3_toasts_obs_start, filter_map_general,
      List.map_map]
    refine List.map_congr_left (fun t ht => ?_)
    have htm : t ∈ w.toasts := List.mem_of_mem_filter ht
    have hcb : t.channel = b := by simpa using List.of_mem_filter ht
    have hnm : ¬t.id ∈ promotedIds cfg c w := by
      intro hmem
      obtain ⟨u, hu, hue⟩ := List.mem_map.mp hmem
      have huw : u ∈ w.toasts :=
        List.mem_of_mem_filter (List.mem_of_mem_take hu)
      have hut : u = t := List.inj_on_of_nodup_map hInv.1 huw htm hue
      have huc : u.channel = c := by
        have := List.of_mem_filter (List.mem_of_mem_take hu)
        simp at this
        exact this.1
      rw [hut, hcb] at huc
      exact hne huc.symm
    have hbc : ¬b = c := fun h => hne h.symm
    simp [ToastEntity.obs, ToastEntity.obsRec, hcb, hbc, hnm]
  have hroot : rootsFor b (channelTick cfg c δ [] w) = rootsFor b w := by
    rw [hct]
    have hde : rootsFor b (despawn_toast_root c (tick_active_toasts c δ w))
        = rootsFor b w := by
      rw [despawn_rootsFor_other b c _ (fun h => hne h.symm)
        (by rw [tick_roots]; exact hInv.2.1), rootsFor_tick]
    by_cases h0 : (toastsToSpawn c (despawn_toast_root c (tick_active_toasts c δ w))).length
        + (spawnedToasts c (despawn_toast_root c (tick_active_toasts c δ w))).length = 0
    · rw [spawn_of_empty _ _ _ h0, hde]
    · have hsr := spawn_roots_of_nonempty cfg c _ h0
      unfold rootsFor
      rw [hsr]
      by_cases hr : (rootsFor c (despawn_toast_root c (tick_active_toasts c δ w))).isEmpty
      · rw [if_pos hr, List.filter_append]
        have : List.filter (fun r => decide (r.channel = b))
            [(⟨(despawn_toast_root c (tick_active_toasts c δ w)).nextId, c⟩ : ToastUiRoot)]
            = [] := by simp [hne]
        rw [this, List.append_nil]
        exact hde
      · rw [if_neg hr]
        exact hde
  show (⟨_, _⟩ : ObsChannel) = ⟨_, _⟩
  rw [hrecs, hroot]

/-- A tick of channel `b`'s own chain (without dismiss input), seen on the
channel's observable state, is exactly `obsTick max_visible δ`: clocks of
visible records advance, then the first `max_visible - live` pending records
become visible, and the container exists afterwards iff the channel is
nonempty. -/
theorem obsChannel_channelTick_self (cfg : Config) (b δ : Nat) (w : World)
    (hInv : w.Inv) :
    obsChannel b (channelTick cfg b δ [] w)
      = obsTick (cfg.maxToasts b) δ (obsChannel b w) := by
  have hct : channelTick cfg b δ [] w
      = spawn_toasts cfg b (despawn_toast_root b (tick_active_toasts b δ w)) := by
    unfold channelTick
    rw [handle_dismiss_nil]
  have hmids : ((w.toasts.filter (fun t => t.channel = b)).map (fun t => t.id)).Nodup :=
    List.Nodup.sublist ((List.filter_sublist _).map _) hInv.1
  have hpend : (w.toasts.filter (fun t => t.channel = b)).filter (fun t => t.widget = none)
      = toastsToSpawn b w := by
    rw [List.filter_filter]
    unfold toastsToSpawn
    refine List.filter_congr (fun t _ => ?_)
    by_cases h1 : t.channel = b <;> by_cases h2 : t.widget = none <;> simp [h1, h2]
  have hlive : (w.toasts.filter (fun t => t.channel = b)).countP (fun t => t.widget.isSome)
      = (spawnedToasts b w).length := by
    rw [List.countP_filter]
    unfold spawnedToasts
    rw [show (List.filter (fun t => decide (t.channel = b ∧ t.widget.isSome = true))
        w.toasts).length
      = w.toasts.countP (fun t => decide (t.channel = b ∧ t.widget.isSome = true)) from
      (List.countP_eq_length_filter _ _).symm]
    refine List.countP_congr (fun t _ => ?_)
    by_cases h1 : t.channel = b <;> by_cases h2 : t.widget.isSome <;> simp [h1, h2]
  have hmlen : (toastsToSpawn b w).length + (spawnedToasts b w).length
      = (w.toasts.filter (fun t => t.channel = b)).length := by
    have h1 : (toastsToSpawn b w).length
        = (w.toasts.filter (fun t => t.channel = b)).countP (fun t => t.widget = none) := by
      rw [← hpend]
      exact (List.countP_eq_length_filter _ _).symm
    have h2 := countP_widget_split (w.toasts.filter (fun t => t.channel = b))
    omega
  have hids2 : promotedIds cfg b w
      = (((w.toasts.filter (fun t => t.channel = b)).filter
            (fun t => t.widget = none)).take
          (cfg.maxToasts b -
            (w.toasts.filter (fun t => t.channel = b)).countP (fun t => t.widget.isSome))).map
          (fun t => t.id) := by
    unfold promotedIds
    rw [hpend, hlive]
  have hrecsL : ((channelTick cfg b δ [] w).toasts.filter (fun t => t.channel = b)).map
        ToastEntity.obsRec
      = (w.toasts.filter (fun t => t.channel = b)).map (fun t => (⟨t.message,
          if t.channel = b ∧ t.widget.isSome then t.elapsed + δ else t.elapsed,
          t.lifetime,
          t.widget.isSome || decide (t.id ∈ promotedIds cfg b w)⟩ : ObsRec)) := by
    rw [hct, filter_channel_map_obsRec, phase3_toasts_obs_start, filter_map_general,
      List.map_map]
    exact List.map_congr_left (fun t _ => rfl)
  have hkey := promoteObs_mem
    (fun t => if t.channel = b ∧ t.widget.isSome then t.elapsed + δ else t.elapsed)
    (w.toasts.filter (fun t => t.channel = b))
    (cfg.maxToasts b -
      (w.toasts.filter (fun t => t.channel = b)).countP (fun t => t.widget.isSome))
    hmids
  have hinner : (w.toasts.filter (fun t => t.channel = b)).map (fun t => (⟨t.message,
        if t.channel = b ∧ t.widget.isSome then t.elapsed + δ else t.elapsed,
        t.lifetime, t.widget.isSome⟩ : ObsRec))
      = ((w.toasts.filter (fun t => t.channel = b)).map ToastEntity.obsRec).map
          (tickObs δ) := by
    rw [List.map_map]
    refine List.map_congr_left (fun t ht => ?_)
    have hcb : t.channel = b := by simpa using List.of_mem_filter ht
    by_cases hw : t.widget.isSome <;>
      simp [tickObs, ToastEntity.obsRec, Function.comp, hcb, hw]
  have hcount : ((w.toasts.filter (fun t => t.channel = b)).map ToastEntity.obsRec).countP
        (fun o => o.ui)
      = (w.toasts.filter (fun t => t.channel = b)).countP (fun t => t.widget.isSome) := by
    rw [List.countP_map]
    exact List.countP_congr (fun t _ => by simp [ToastEntity.obsRec, Function.comp])
  have hrecs2 : ((channelTick cfg b δ [] w).toasts.filter (fun t => t.channel = b)).map
        ToastEntity.obsRec
      = promoteObs
          (cfg.maxToasts b -
            ((w.toasts.filter (fun t => t.channel = b)).map ToastEntity.obsRec).countP
              (fun o => o.ui))
          (((w.toasts.filter (fun t => t.channel = b)).map ToastEntity.obsRec).map
            (tickObs δ)) := by
    rw [hrecsL, hcount]
    rw [show (fun t : ToastEntity => (⟨t.message,
        if t.channel = b ∧ t.widget.isSome then t.elapsed + δ else t.elapsed,
        t.lifetime,
        t.widget.isSome || decide (t.id ∈ promotedIds cfg b w)⟩ : ObsRec))
      = fun t : ToastEntity => (⟨t.message,
        if t.channel = b ∧ t.widget.isSome then t.elapsed + δ else t.elapsed,
        t.lifetime,
        t.widget.isSome || decide (t.id ∈
          (((w.toasts.filter (fun t => t.channel = b)).filter
              (fun t => t.widget = none)).take
            (cfg.maxToasts b -
              (w.toasts.filter (fun t => t.channel = b)).countP
                (fun t => t.widget.isSome))).map (fun t => t.id))⟩ : ObsRec) from by
      rw [← hids2]]
    rw [hkey, hinner]
  have hlen0 : (toastsToSpawn b (tick_active_toasts b δ w)).length
      + (spawnedToasts b (tick_active_toasts b δ w)).length
      = (toastsToSpawn b w).length + (spawnedToasts b w).length := by
    have h1 := pendingCount_tick b b δ w
    have h2 := promotedCount_tick b b δ w
    simp only [pendingCount, promotedCount] at h1 h2
    omega
  by_cases hm0 : (w.toasts.filter (fun t => t.channel = b)).length = 0
  · -- empty channel: teardown, no promotion
    have hcnt0 : (toastsToSpawn b w).length + (spawnedToasts b w).length = 0 := by omega
    have hw2 : rootsFor b (despawn_toast_root b (tick_active_toasts b δ w)) = [] := by
      refine despawn_rootsFor_self b _ (by omega) ?_
      rw [rootsFor_tick]
      exact rootsFor_length_le_one hInv.2.2.1 b
    have hcnt2 : (toastsToSpawn b (despawn_toast_root b (tick_active_toasts b δ w))).length
        + (spawnedToasts b (despawn_toast_root b (tick_active_toasts b δ w))).length = 0 := by
      rw [toastsToSpawn_phase2]
      have := spawnedToasts_length_phase2 b δ w
      omega
    have hspawn : spawn_toasts cfg b (despawn_toast_root b (tick_active_toasts b δ w))
        = despawn_toast_root b (tick_active_toasts b δ w) :=
      spawn_of_empty _ _ _ hcnt2
    have hflag : rootsFor b (channelTick cfg b δ [] w) = [] := by
      rw [hct, hspawn, hw2]
    have hrlen : ((w.toasts.filter (fun t => t.channel = b)).map ToastEntity.obsRec).length
        = 0 := by
      rw [List.length_map]
      exact hm0
    show (⟨_, _⟩ : ObsChannel) = _
    unfold obsTick
    rw [if_pos (by simpa [obsChannel] using hrlen)]
    have hm_nil : w.toasts.filter (fun t => t.channel = b) = [] :=
      List.length_eq_zero.mp hm0
    refine congrArg₂ ObsChannel.mk ?_ ?_
    · rw [hrecs2]
      simp [obsChannel, hm_nil, promoteObs]
    · rw [hflag]
      simp
  · -- nonempty channel: container guaranteed, promotion up to capacity
    have hcntw : ¬(toastsToSpawn b w).length + (spawnedToasts b w).length = 0 := by omega
    have hw2eq : despawn_toast_root b (tick_active_toasts b δ w)
        = tick_active_toasts b δ w :=
      despawn_of_nonempty b _ (by omega)
    have hcnt2 : ¬(toastsToSpawn b (despawn_toast_root b (tick_active_toasts b δ w))).length
        + (spawnedToasts b (despawn_toast_root b (tick_active_toasts b δ w))).length = 0 := by
      rw [toastsToSpawn_phase2]
      have := spawnedToasts_length_phase2 b δ w
      omega
    have hflag : ¬rootsFor b (channelTick cfg b δ [] w) = [] := by
      rw [hct]
      have hsr := spawn_roots_of_nonempty cfg b _ hcnt2
      show ¬rootsFor b _ = []
      unfold rootsFor
      rw [hsr]
      by_cases hr : (rootsFor b (despawn_toast_root b (tick_active_toasts b δ w))).isEmpty
      · rw [if_pos hr, List.filter_append]
        simp
      · rw [if_neg hr]
        intro hnil
        exact hr (List.isEmpty_iff.mpr hnil)
    show (⟨_, _⟩ : ObsChannel) = _
    unfold obsTick
    rw [if_neg (by
      show ¬(((w.toasts.filter (fun t => t.channel = b)).map
        ToastEntity.obsRec).length = 0)
      rw [List.length_map]
      exact hm0)]
    refine congrArg₂ ObsChannel.mk ?_ ?_
    · rw [hrecs2]
      rfl
    · simp [List.isEmpty_iff, hflag]

theorem obsChannel_custom_toast_other (cfg : Config) (b a : Nat) (msgs : List String)
    (w : World) (hne : ¬a = b) :
    obsChannel b (custom_toast cfg a msgs w) = obsChannel b w := by
  induction msgs generalizing w with
  | nil => rfl
  | cons m msgs ih =>
    show obsChannel b (custom_toast cfg a msgs
      { w with
        toasts := w.toasts ++ [(⟨w.nextId, a, m, 0, cfg.toastLifetime a, none⟩ : ToastEntity)],
        nextId := w.nextId + 1 }) = obsChannel b w
    rw [ih]
    unfold obsChannel
    refine congrArg₂ ObsChannel.mk ?_ rfl
    show ((w.toasts ++ [(⟨w.nextId, a, m, 0, cfg.toastLifetime a, none⟩ : ToastEntity)]).filter
        (fun t => t.channel = b)).map (fun t => t.obsRec)
      = (w.toasts.filter (fun t => t.channel = b)).map (fun t => t.obsRec)
    rw [List.filter_append]
    simp [hne]

theorem obsChannel_custom_toast_self (cfg : Config) (b : Nat) (msgs : List String)
    (w : World) :
    obsChannel b (custom_toast cfg b msgs w)
      = ⟨(obsChannel b w).recs ++ msgs.map (fun m => ⟨m, 0, cfg.toastLifetime b, false⟩),
          (obsChannel b w).hasRoot⟩ := by
  induction msgs generalizing w with
  | nil =>
    show obsChannel b w = _
    simp
  | cons m msgs ih =>
    show obsChannel b (custom_toast cfg b msgs
      { w with
        toasts := w.toasts ++ [(⟨w.nextId, b, m, 0, cfg.toastLifetime b, none⟩ : ToastEntity)],
        nextId := w.nextId + 1 }) = _
    rw [ih]
    refine congrArg₂ ObsChannel.mk ?_ rfl
    show ((w.toasts ++ [(⟨w.nextId, b, m, 0, cfg.toastLifetime b, none⟩ : ToastEntity)]).filter
        (fun t => t.channel = b)).map (fun t => t.obsRec)
        ++ msgs.map (fun m => (⟨m, 0, cfg.toastLifetime b, false⟩ : ObsRec))
      = (w.toasts.filter (fun t => t.channel = b)).map (fun t => t.obsRec)
        ++ (m :: msgs).map (fun m => (⟨m, 0, cfg.toastLifetime b, false⟩ : ObsRec))
    rw [List.filter_append]
    simp [ToastEntity.obsRec]

theorem obs_agree_ticks (cfg : Config) (b δ : Nat) (cs : List Nat) :
    ∀ w1 w2 : World, w1.Inv → w2.Inv → obsChannel b w1 = obsChannel b w2 →
      obsChannel b (cs.foldl (fun acc c => channelTick cfg c δ [] acc) w1)
        = obsChannel b (cs.foldl (fun acc c => channelTick cfg c δ [] acc) w2) := by
  induction cs with
  | nil => exact fun w1 w2 _ _ h => h
  | cons c cs ih =>
    intro w1 w2 h1 h2 hobs
    refine ih _ _ (channelTick_Inv _ _ _ _ _ h1) (channelTick_Inv _ _ _ _ _ h2) ?_
    by_cases hc : c = b
    · subst hc
      rw [obsChannel_channelTick_self cfg c δ w1 h1,
        obsChannel_channelTick_self cfg c δ w2 h2, hobs]
    · rw [obsChannel_channelTick_other cfg b c δ w1 hc h1,
        obsChannel_channelTick_other cfg b c δ w2 hc h2, hobs]

theorem obs_agree_stepEvent (cfg : Config) (b : Nat) (ev : Event) (w1 w2 : World)
    (h1 : w1.Inv) (h2 : w2.Inv) (hobs : obsChannel b w1 = obsChannel b w2)
    (hev : ev.noDismiss) :
    obsChannel b (stepEvent cfg w1 ev) = obsChannel b (stepEvent cfg w2 ev) := by
  cases ev with
  | submit c msgs =>
    by_cases hc : c = b
    · subst hc
      show obsChannel c (custom_toast cfg c msgs w1) = obsChannel c (custom_toast cfg c msgs w2)
      rw [obsChannel_custom_toast_self, obsChannel_custom_toast_self, hobs]
    · show obsChannel b (custom_toast cfg c msgs w1) = obsChannel b (custom_toast cfg c msgs w2)
      rw [obsChannel_custom_toast_other cfg b c msgs w1 hc,
        obsChannel_custom_toast_other cfg b c msgs w2 hc, hobs]
  | tick cs δ pressed =>
    have hp : pressed = [] := hev
    subst hp
    exact obs_agree_ticks cfg b δ cs w1 w2 h1 h2 hobs

theorem obs_agree_runTrace (cfg : Config) (b : Nat) (evs : List Event) :
    ∀ w1 w2 : World, w1.Inv → w2.Inv → obsChannel b w1 = obsChannel b w2 →
      (∀ ev ∈ evs, ev.noDismiss) →
      obsChannel b (runTrace cfg w1 evs) = obsChannel b (runTrace cfg w2 evs) := by
  induction evs with
  | nil => exact fun w1 w2 _ _ h _ => h
  | cons ev evs ih =>
    intro w1 w2 h1 h2 hobs hnd
    exact ih _ _ (stepEvent_Inv cfg w1 ev h1) (stepEvent_Inv cfg w2 ev h2)
      (obs_agree_stepEvent cfg b ev w1 w2 h1 h2 hobs (hnd ev (by simp)))
      (fun e he => hnd e (by simp [he]))

/-! ### Capacity counting -/

theorem promotedCount_obs (c : Nat) (w : World) :
    promotedCount c w
      = (w.toasts.map (·.obs)).countP (fun o => o.channel = c ∧ o.ui) := by
  rw [promotedCount_eq_countP, List.countP_map]
  rfl

theorem spawn_promotedCount_le (cfg : Config) (c : Nat) (w : World)
    (hids : (w.toasts.map (fun t => t.id)).Nodup) :
    promotedCount c (spawn_toasts cfg c w)
      ≤ promotedCount c w + (cfg.maxToasts c - promotedCount c w) := by
  rw [promotedCount_obs, spawn_toasts_toasts_obs, List.countP_map]
  have hsplit : w.toasts.countP (fun t =>
        decide (t.channel = c ∧ t.widget.isSome)
          || decide (t.channel = c ∧ t.id ∈ promotedIds cfg c w))
      ≤ w.toasts.countP (fun t => t.channel = c ∧ t.widget.isSome)
        + w.toasts.countP (fun t => t.channel = c ∧ t.id ∈ promotedIds cfg c w) :=
    countP_disj_le _ _ _
  have hcongr : w.toasts.countP ((fun o : ObsToast => decide (o.channel = c ∧ o.ui = true)) ∘
        (fun t => (⟨t.id, t.channel, t.message, t.elapsed, t.lifetime,
          t.widget.isSome || decide (t.id ∈ promotedIds cfg c w)⟩ : ObsToast)))
      = w.toasts.countP (fun t =>
          decide (t.channel = c ∧ t.widget.isSome)
            || decide (t.channel = c ∧ t.id ∈ promotedIds cfg c w)) := by
    refine List.countP_congr (fun t _ => ?_)
    by_cases h1 : t.channel = c <;> by_cases h2 : t.widget.isSome <;>
      by_cases h3 : t.id ∈ promotedIds cfg c w <;> simp [Function.comp, h1, h2, h3]
  have hmemle : w.toasts.countP (fun t => t.channel = c ∧ t.id ∈ promotedIds cfg c w)
      ≤ cfg.maxToasts c - promotedCount c w := by
    have hmono : w.toasts.countP (fun t => t.channel = c ∧ t.id ∈ promotedIds cfg c w)
        ≤ w.toasts.countP (fun t => t.id ∈ promotedIds cfg c w) := by
      refine List.countP_mono_left (fun t _ h => ?_)
      simp only [decide_eq_true_eq] at h ⊢
      exact h.2
    refine le_trans hmono ?_
    refine le_trans (countP_mem_key_le (fun t => t.id) w.toasts _ hids) ?_
    unfold promotedIds
    rw [List.length_map]
    exact List.length_take_le _ _
  calc (w.toasts.countP _)
      = w.toasts.countP (fun t =>
          decide (t.channel = c ∧ t.widget.isSome)
            || decide (t.channel = c ∧ t.id ∈ promotedIds cfg c w)) := hcongr
    _ ≤ _ + _ := hsplit
    _ ≤ promotedCount c w + (cfg.maxToasts c - promotedCount c w) := by
        rw [promotedCount_eq_countP c w]
        rw [promotedCount_eq_countP c w] at hmemle
        exact Nat.add_le_add (le_refl _) hmemle

theorem spawn_promotedCount_other (cfg : Config) (c' c : Nat) (w : World)
    (hne : ¬c' = c) (hids : (w.toasts.map (fun t => t.id)).Nodup) :
    promotedCount c' (spawn_toasts cfg c w) = promotedCount c' w := by
  rw [promotedCount_obs, spawn_toasts_toasts_obs, List.countP_map, promotedCount_eq_countP]
  refine List.countP_congr (fun t ht => ?_)
  by_cases h1 : t.channel = c'
  · have hnm : ¬t.id ∈ promotedIds cfg c w := by
      intro hmem
      obtain ⟨u, hu, hue⟩ := List.mem_map.mp hmem
      have huw : u ∈ w.toasts := List.mem_of_mem_filter (List.mem_of_mem_take hu)
      have hut : u = t := List.inj_on_of_nodup_map hids huw ht hue
      have huc : u.channel = c := by
        have := List.of_mem_filter (List.mem_of_mem_take hu)
        simp at this
        exact this.1
      rw [hut, h1] at huc
      exact hne huc
    simp [Function.comp, h1, hnm]
  · simp [Function.comp, h1]

theorem dismiss_promotedCount_le (pressed : List Nat) (c : Nat) (w : World) :
    promotedCount c (handle_dismiss_toast_buttons pressed w) ≤ promotedCount c w := by
  rw [promotedCount_eq_countP, promotedCount_eq_countP]
  exact (dismiss_toasts_sublist pressed w).countP_le _

theorem custom_toast_promotedCount (cfg : Config) (a : Nat) (msgs : List String)
    (c : Nat) (w : World) :
    promotedCount c (custom_toast cfg a msgs w) = promotedCount c w := by
  induction msgs generalizing w with
  | nil => rfl
  | cons m msgs ih =>
    show promotedCount c (custom_toast cfg a msgs
      { w with
        toasts := w.toasts ++ [(⟨w.nextId, a, m, 0, cfg.toastLifetime a, none⟩ : ToastEntity)],
        nextId := w.nextId + 1 }) = _
    rw [ih]
    rw [promotedCount_eq_countP, promotedCount_eq_countP]
    show (w.toasts ++ [(⟨w.nextId, a, m, 0, cfg.toastLifetime a, none⟩ : ToastEntity)]).countP _
      = w.toasts.countP _
    rw [List.countP_append]
    simp

theorem channelTick_capacity (cfg : Config) (c' c δ : Nat) (pressed : List Nat)
    (w : World) (hInv : w.Inv) (hcap : promotedCount c' w ≤ cfg.maxToasts c') :
    promotedCount c' (channelTick cfg c δ pressed w) ≤ cfg.maxToasts c' := by
  have hids2 : ((despawn_toast_root c (tick_active_toasts c δ w)).toasts.map
      (fun t => t.id)).Nodup := (despawn_Inv c _ (tick_Inv c δ w hInv)).1
  have hlive2 : promotedCount c' (despawn_toast_root c (tick_active_toasts c δ w))
      = promotedCount c' w := by
    rw [promotedCount_despawn, promotedCount_tick]
  refine le_trans (dismiss_promotedCount_le pressed c' _) ?_
  by_cases hc : c' = c
  · subst hc
    refine le_trans (spawn_promotedCount_le cfg c' _ hids2) ?_
    rw [hlive2]
    omega
  · rw [spawn_promotedCount_other cfg c' c _ hc hids2, hlive2]
    exact hcap

theorem runTrace_capacity (cfg : Config) (evs : List Event) (c : Nat) :
    promotedCount c (runTrace cfg World.start evs) ≤ cfg.maxToasts c := by
  suffices h : ∀ w : World, w.Inv → (∀ c', promotedCount c' w ≤ cfg.maxToasts c') →
      ∀ c', promotedCount c' (runTrace cfg w evs) ≤ cfg.maxToasts c' by
    refine h World.start Inv_start (fun c' => ?_) c
    simp [promotedCount, spawnedToasts, World.start]
  induction evs with
  | nil => exact fun w _ hcap => hcap
  | cons ev evs ih =>
    intro w hInv hcap c'
    refine ih _ (stepEvent_Inv cfg w ev hInv) (fun c2 => ?_) c'
    cases ev with
    | submit a msgs =>
      show promotedCount c2 (custom_toast cfg a msgs w) ≤ _
      rw [custom_toast_promotedCount]
      exact hcap c2
    | tick cs δ pressed =>
      show promotedCount c2 (cs.foldl (fun acc c => channelTick cfg c δ pressed acc) w) ≤ _
      clear ih
      induction cs generalizing w with
      | nil => exact hcap c2
      | cons c3 cs ih3 =>
        exact ih3 _ (channelTick_Inv cfg c3 δ pressed w hInv)
          (fun c4 => channelTick_capacity cfg c4 c3 δ pressed w hInv (hcap c4))

/-! ### Per-record characterization of one tick -/

theorem phase3_ids (cfg : Config) (c δ : Nat) (w : World) :
    (spawn_toasts cfg c (despawn_toast_root c (tick_active_toasts c δ w))).toasts.map
        (fun t => t.id)
      = w.toasts.map (fun t => t.id) := by
  rw [spawn_ids]
  rw [show (despawn_toast_root c (tick_active_toasts c δ w)).toasts
      = (tick_active_toasts c δ w).toasts from despawn_toasts _ _]
  rw [tick_ids]

/-- What one full tick of channel `c`'s chain does to the record with a given
surviving id: the clock advances iff the record was visible, the channel,
message and lifetime are unchanged, and visibility is gained exactly by the
records admitted this tick. -/
theorem channelTick_mem_char (cfg : Config) (c δ : Nat) (pressed : List Nat) (w : World)
    (hids : (w.toasts.map (fun t => t.id)).Nodup)
    (t : ToastEntity) (ht : t ∈ w.toasts)
    (t' : ToastEntity) (ht' : t' ∈ (channelTick cfg c δ pressed w).toasts)
    (hid : t'.id = t.id) :
    t'.obs = ⟨t.id, t.channel, t.message,
      if t.channel = c ∧ t.widget.isSome then t.elapsed + δ else t.elapsed,
      t.lifetime,
      t.widget.isSome || decide (t.id ∈ promotedIds cfg c w)⟩ := by
  have ht3 : t' ∈ (spawn_toasts cfg c
      (despawn_toast_root c (tick_active_toasts c δ w))).toasts :=
    List.mem_of_mem_filter ht'
  have hm3 : t'.obs ∈ (spawn_toasts cfg c
      (despawn_toast_root c (tick_active_toasts c δ w))).toasts.map (·.obs) :=
    List.mem_map_of_mem _ ht3
  rw [phase3_toasts_obs_start] at hm3
  obtain ⟨s, hs, hgs⟩ := List.mem_map.mp hm3
  have hsid : s.id = t.id := by
    have h1 : s.id = t'.id := congrArg ObsToast.id hgs
    rw [h1, hid]
  have hst : s = t := List.inj_on_of_nodup_map hids hs ht hsid
  rw [← hgs, hst]

theorem promoteAll_mem_of_not_mem (w : World) (ids : List Nat) (t : ToastEntity)
    (ht : t ∈ w.toasts) (hnm : ¬t.id ∈ ids) : t ∈ (promoteAll w ids).toasts := by
  induction ids generalizing w with
  | nil => exact ht
  | cons i ids ih =>
    have hne : ¬t.id = i := fun h => hnm (by simp [h])
    have hstep : t ∈ (promoteToast w i).toasts :=
      List.mem_map.mpr ⟨t, ht, by rw [if_neg hne]⟩
    exact ih (promoteToast w i) hstep (fun h => hnm (by simp [h]))

theorem spawn_mem_of_not_mem (cfg : Config) (c : Nat) (w : World) (t : ToastEntity)
    (ht : t ∈ w.toasts) (hnm : ¬t.id ∈ promotedIds cfg c w) :
    t ∈ (spawn_toasts cfg c w).toasts := by
  unfold spawn_toasts
  by_cases h0 : (toastsToSpawn c w).length + (spawnedToasts c w).length = 0
  · rw [if_pos h0]; exact ht
  · rw [if_neg h0]
    refine promoteAll_mem_of_not_mem _ _ t ?_ hnm
    by_cases hr : (rootsFor c w).isEmpty <;> simp [hr, ht]

/-- A visible toast whose dismiss button is not pressed survives the full
tick, with only its clock advanced. -/
theorem channelTick_promoted_survives (cfg : Config) (c δ : Nat) (pressed : List Nat)
    (w : World) (hids : (w.toasts.map (fun t => t.id)).Nodup)
    (t : ToastEntity) (g0 : ToastWidget) (ht : t ∈ w.toasts) (hw : t.widget = some g0)
    (hbp : ¬g0.buttonId ∈ pressed) :
    tickToast c δ t ∈ (channelTick cfg c δ pressed w).toasts := by
  have ht1 : tickToast c δ t ∈ (tick_active_toasts c δ w).toasts :=
    List.mem_map_of_mem _ ht
  have ht2 : tickToast c δ t ∈ (despawn_toast_root c (tick_active_toasts c δ w)).toasts := by
    rw [despawn_toasts]; exact ht1
  have hnm : ¬(tickToast c δ t).id ∈
      promotedIds cfg c (despawn_toast_root c (tick_active_toasts c δ w)) := by
    rw [promotedIds_phase2, tickToast_id]
    intro hmem
    obtain ⟨u, hu, hue⟩ := List.mem_map.mp hmem
    have huw : u ∈ w.toasts := List.mem_of_mem_filter (List.mem_of_mem_take hu)
    have hut : u = t := List.inj_on_of_nodup_map hids huw ht hue
    have hun : u.widget = none := by
      have := List.of_mem_filter (List.mem_of_mem_take hu)
      simp at this
      exact this.2
    rw [hut, hw] at hun
    simp at hun
  have ht3 : tickToast c δ t ∈ (spawn_toasts cfg c
      (despawn_toast_root c (tick_active_toasts c δ w))).toasts :=
    spawn_mem_of_not_mem cfg c _ _ ht2 hnm
  have hids3 : ((spawn_toasts cfg c
      (despawn_toast_root c (tick_active_toasts c δ w))).toasts.map
        (fun t => t.id)).Nodup := by
    rw [phase3_ids]; exact hids
  refine List.mem_filter.mpr ⟨ht3, ?_⟩
  have hnd : ¬(tickToast c δ t).id ∈ dismissedIds pressed
      (spawn_toasts cfg c (despawn_toast_root c (tick_active_toasts c δ w))) := by
    rw [mem_dismissedIds]
    rintro ⟨s, hsmem, g1, hg1, hb1, hsid⟩
    have hst : s = tickToast c δ t :=
      List.inj_on_of_nodup_map hids3 hsmem ht3 hsid
    rw [hst, tickToast_widget, hw] at hg1
    injection hg1 with hg1e
    rw [← hg1e] at hb1
    exact hbp hb1
  simpa using hnd


/-! ## Claims -/

/-- Claim C1: capacity invariant.  Starting from the empty world, after any
sequence of emissions and ticks the number of promoted (visible) records of
any channel never exceeds that channel's `max_visible`; moreover, within a
tick, the promotion phase adds at most `max_visible - live` visible records,
where `live` is the promoted count at the start of the promotion phase. -/
theorem capacity_invariant (cfg : Config) (evs : List Event) (c δ : Nat) :
    promotedCount c (runTrace cfg World.start evs) ≤ cfg.maxToasts c ∧
    promotedCount c (spawn_toasts cfg c (despawn_toast_root c
        (tick_active_toasts c δ (runTrace cfg World.start evs))))
      ≤ promotedCount c (despawn_toast_root c
          (tick_active_toasts c δ (runTrace cfg World.start evs)))
        + (cfg.maxToasts c - promotedCount c (despawn_toast_root c
            (tick_active_toasts c δ (runTrace cfg World.start evs)))) := by
  refine ⟨runTrace_capacity cfg evs c, ?_⟩
  exact spawn_promotedCount_le cfg c _
    ((despawn_Inv _ _ (tick_Inv _ _ _ (runTrace_Inv cfg evs _ Inv_start))).1)

/-- Claim C2: FIFO promotion.  On a channel with no live toasts and more
pending records than `max_visible`, one tick promotes exactly the first
`max_visible` pending records, in arrival order and otherwise unchanged, and
leaves the remainder pending in their original relative order. -/
theorem fifo_promotion (cfg : Config) (c δ : Nat) (w : World)
    (hids : (w.toasts.map (fun t => t.id)).Nodup)
    (hlive : spawnedToasts c w = [])
    (hover : cfg.maxToasts c < (toastsToSpawn c w).length) :
    (spawnedToasts c (channelTick cfg c δ [] w)).map (·.obs)
        = ((toastsToSpawn c w).take (cfg.maxToasts c)).map
            (fun t => ⟨t.id, t.channel, t.message, t.elapsed, t.lifetime, true⟩) ∧
    (spawnedToasts c (channelTick cfg c δ [] w)).length = cfg.maxToasts c ∧
    (toastsToSpawn c (channelTick cfg c δ [] w)).map (·.obs)
        = ((toastsToSpawn c w).drop (cfg.maxToasts c)).map (·.obs) := by
  refine ⟨spawnedToasts_one_tick cfg c δ w hids hlive, ?_,
    toastsToSpawn_one_tick cfg c δ w hids hlive⟩
  have h := congrArg List.length (spawnedToasts_one_tick cfg c δ w hids hlive)
  rw [List.length_map, List.length_map, List.length_take] at h
  rw [h]
  omega

/-- Witness for C2 at a concrete world: four pending messages on a channel
with capacity three. -/
theorem fifo_promotion_witness :
    (((custom_toast ⟨fun _ => 3, fun _ => 10⟩ 0 ["a", "b", "c", "d"]
        World.start).toasts.map (fun t => t.id)).Nodup
      ∧ spawnedToasts 0 (custom_toast ⟨fun _ => 3, fun _ => 10⟩ 0 ["a", "b", "c", "d"]
          World.start) = []
      ∧ (⟨fun _ => 3, fun _ => 10⟩ : Config).maxToasts 0
          < (toastsToSpawn 0 (custom_toast ⟨fun _ => 3, fun _ => 10⟩ 0
              ["a", "b", "c", "d"] World.start)).length) ∧
    (spawnedToasts 0 (channelTick ⟨fun _ => 3, fun _ => 10⟩ 0 5 []
        (custom_toast ⟨fun _ => 3, fun _ => 10⟩ 0 ["a", "b", "c", "d"]
          World.start))).length = 3 :=
  ⟨⟨by decide, by decide, by decide⟩,
    (fifo_promotion ⟨fun _ => 3, fun _ => 10⟩ 0 5 _
      (by decide) (by decide) (by decide)).2.1⟩

/-- Claim C3, counterexample: the source's chain in `ToastPlugin::build` runs
`tick_active_toasts` first, then `despawn_toast_root`, `spawn_toasts`,
`handle_dismiss_toast_buttons`; the order the claim states (teardown, then
promotion, then clock advance, then dismissal) is observably different — with
it, a record promoted this tick would end the tick with its clock already
advanced by the tick's delta. -/
theorem phase_order_counterexample :
    (channelTick ⟨fun _ => 3, fun _ => 10⟩ 0 5 []
        ⟨[⟨0, 0, "m", 0, 10, none⟩], [], 1⟩).toasts.map (fun t => t.elapsed)
      ≠ (specOrderChannelTick ⟨fun _ => 3, fun _ => 10⟩ 0 5 []
        ⟨[⟨0, 0, "m", 0, 10, none⟩], [], 1⟩).toasts.map (fun t => t.elapsed) := by
  decide

/-- Claim C3, amended: within every tick the four phases execute in the fixed
order clock advance, then container-teardown check, then
admission/promotion, then dismissal processing; consequently a record that is
pending at the start of a tick — in particular one promoted during that
tick — does not have its clock advanced in that tick. -/
theorem phase_order_amended (cfg : Config) (c δ : Nat) (pressed : List Nat) (w : World)
    (hids : (w.toasts.map (fun t => t.id)).Nodup) :
    channelTick cfg c δ pressed w
      = handle_dismiss_toast_buttons pressed
          (spawn_toasts cfg c (despawn_toast_root c (tick_active_toasts c δ w))) ∧
    ∀ t ∈ w.toasts, t.widget = none →
      ∀ t' ∈ (channelTick cfg c δ pressed w).toasts, t'.id = t.id →
        t'.elapsed = t.elapsed := by
  refine ⟨rfl, fun t ht hw t' ht' hid => ?_⟩
  have hchar := channelTick_mem_char cfg c δ pressed w hids t ht t' ht' hid
  have he := congrArg ObsToast.elapsed hchar
  simp only [ToastEntity.obs] at he
  rw [he]
  simp [hw]

/-- Witness for the amended C3: the single pending record promoted in a tick
with delta 5 still has elapsed clock 0 afterwards. -/
theorem phase_order_amended_witness :
    (((⟨[⟨0, 0, "m", 0, 10, none⟩], [], 1⟩ : World).toasts.map (fun t => t.id)).Nodup
      ∧ (⟨0, 0, "m", 0, 10, none⟩ : ToastEntity) ∈
          (⟨[⟨0, 0, "m", 0, 10, none⟩], [], 1⟩ : World).toasts
      ∧ (⟨0, 0, "m", 0, 10, some ⟨2, 3, 4⟩⟩ : ToastEntity) ∈
          (channelTick ⟨fun _ => 3, fun _ => 10⟩ 0 5 []
            ⟨[⟨0, 0, "m", 0, 10, none⟩], [], 1⟩).toasts) ∧
    (⟨0, 0, "m", 0, 10, some ⟨2, 3, 4⟩⟩ : ToastEntity).elapsed
      = (⟨0, 0, "m", 0, 10, none⟩ : ToastEntity).elapsed :=
  ⟨⟨by decide, by decide, by decide⟩,
    (phase_order_amended ⟨fun _ => 3, fun _ => 10⟩ 0 5 []
        ⟨[⟨0, 0, "m", 0, 10, none⟩], [], 1⟩ (by decide)).2
      ⟨0, 0, "m", 0, 10, none⟩ (by decide) (by decide)
      ⟨0, 0, "m", 0, 10, some ⟨2, 3, 4⟩⟩ (by decide) (by decide)⟩

/-- Claim C4: container existence and uniqueness.  After a tick of channel
`c`'s chain, `c` has a container iff it had at least one pending or promoted
record at the start of the tick (the teardown phase removes the container
when both counts are zero, the promotion phase creates one when the combined
count is nonzero and none exists); and no channel ever has two containers
simultaneously. -/
theorem container_existence (cfg : Config) (c δ : Nat) (pressed : List Nat) (w : World)
    (hch : (w.roots.map (fun r => r.channel)).Nodup) :
    ((rootsFor c (channelTick cfg c δ pressed w)).isEmpty = false
        ↔ 0 < pendingCount c w + promotedCount c w) ∧
    ∀ c2, (rootsFor c2 (channelTick cfg c δ pressed w)).length ≤ 1 := by
  have hp1 := pendingCount_tick c c δ w
  have hp2 := promotedCount_tick c c δ w
  simp only [pendingCount, promotedCount] at hp1 hp2
  by_cases h0 : pendingCount c w + promotedCount c w = 0
  · simp only [pendingCount, promotedCount] at h0
    have hw2 : rootsFor c (despawn_toast_root c (tick_active_toasts c δ w)) = [] := by
      refine despawn_rootsFor_self c _ (by omega) ?_
      rw [rootsFor_tick]
      exact rootsFor_length_le_one hch c
    have hsp : spawn_toasts cfg c (despawn_toast_root c (tick_active_toasts c δ w))
        = despawn_toast_root c (tick_active_toasts c δ w) := by
      refine spawn_of_empty cfg c _ ?_
      rw [toastsToSpawn_phase2]
      have := spawnedToasts_length_phase2 c δ w
      omega
    have hczero : rootsFor c (channelTick cfg c δ pressed w) = [] := by
      show rootsFor c (spawn_toasts cfg c
        (despawn_toast_root c (tick_active_toasts c δ w))) = []
      rw [hsp]
      exact hw2
    constructor
    · rw [hczero]
      constructor
      · intro h
        simp at h
      · intro h
        simp only [pendingCount, promotedCount] at h
        omega
    · intro c2
      have hsub : (despawn_toast_root c (tick_active_toasts c δ w)).roots.Sublist w.roots := by
        have h := despawn_roots_sublist c (tick_active_toasts c δ w)
        rwa [tick_roots] at h
      show (rootsFor c2 (spawn_toasts cfg c
        (despawn_toast_root c (tick_active_toasts c δ w)))).length ≤ 1
      rw [hsp]
      refine le_trans (List.Sublist.length_le ?_) (rootsFor_length_le_one hch c2)
      exact hsub.filter _
  · simp only [pendingCount, promotedCount] at h0
    have hW1 : despawn_toast_root c (tick_active_toasts c δ w) = tick_active_toasts c δ w :=
      despawn_of_nonempty c _ (by omega)
    have hsr := spawn_roots_of_nonempty cfg c (tick_active_toasts c δ w) (by omega)
    have hcne : ¬rootsFor c (channelTick cfg c δ pressed w) = [] := by
      show ¬rootsFor c (spawn_toasts cfg c
        (despawn_toast_root c (tick_active_toasts c δ w))) = []
      rw [hW1]
      unfold rootsFor
      rw [hsr]
      by_cases hr : (rootsFor c (tick_active_toasts c δ w)).isEmpty
      · rw [if_pos hr, List.filter_append]
        intro hnil
        simp at hnil
      · rw [if_neg hr]
        intro hnil
        exact hr (List.isEmpty_iff.mpr hnil)
    constructor
    · constructor
      · intro _
        simp only [pendingCount, promotedCount]
        omega
      · intro _
        cases hcase : rootsFor c (channelTick cfg c δ pressed w) with
        | nil => exact absurd hcase hcne
        | cons r rest => rfl
    · intro c2
      show (rootsFor c2 (spawn_toasts cfg c
        (despawn_toast_root c (tick_active_toasts c δ w)))).length ≤ 1
      rw [hW1]
      unfold rootsFor
      rw [hsr]
      by_cases hr : (rootsFor c (tick_active_toasts c δ w)).isEmpty
      · rw [if_pos hr, List.filter_append]
        by_cases hc2 : c2 = c
        · subst hc2
          have hnil : (tick_active_toasts c2 δ w).roots.filter
              (fun r => decide (r.channel = c2)) = [] := List.isEmpty_iff.mp hr
          rw [hnil]
          simp
        · have hnil2 : List.filter (fun r => decide (r.channel = c2))
              [(⟨(tick_active_toasts c δ w).nextId, c⟩ : ToastUiRoot)] = [] := by
            simp [Ne.symm hc2]
          rw [hnil2, List.append_nil, tick_roots]
          exact rootsFor_length_le_one hch c2
      · rw [if_neg hr]
        rw [tick_roots]
        exact rootsFor_length_le_one hch c2

/-- Witness for C4: one pending record on a fresh channel creates exactly one
container; the iff and the uniqueness bound hold at this input. -/
theorem container_existence_witness :
    (((custom_toast ⟨fun _ => 3, fun _ => 10⟩ 0 ["a"]
        World.start).roots.map (fun r => r.channel)).Nodup) ∧
    ((rootsFor 0 (channelTick ⟨fun _ => 3, fun _ => 10⟩ 0 5 []
        (custom_toast ⟨fun _ => 3, fun _ => 10⟩ 0 ["a"] World.start))).isEmpty = false
      ↔ 0 < pendingCount 0 (custom_toast ⟨fun _ => 3, fun _ => 10⟩ 0 ["a"] World.start)
          + promotedCount 0 (custom_toast ⟨fun _ => 3, fun _ => 10⟩ 0 ["a"] World.start)) :=
  ⟨by decide,
    (container_existence ⟨fun _ => 3, fun _ => 10⟩ 0 5 []
      (custom_toast ⟨fun _ => 3, fun _ => 10⟩ 0 ["a"] World.start) (by decide)).1⟩

/-- Claim C5: expiry is a no-op hook.  The clock phase compares
`elapsed > lifetime` but changes nothing except the elapsed clocks: ids,
channels, messages, lifetimes, widgets, record count and containers are all
untouched, even for records past their lifetime; and a visible record whose
clock has exceeded its lifetime still survives the whole tick, promoted,
unless its own dismiss button is pressed. -/
theorem expiry_noop (cfg : Config) (c δ : Nat) (pressed : List Nat) (w : World)
    (hids : (w.toasts.map (fun t => t.id)).Nodup) :
    ((tick_active_toasts c δ w).toasts.map
          (fun t => (t.id, t.channel, t.message, t.lifetime, t.widget))
        = w.toasts.map (fun t => (t.id, t.channel, t.message, t.lifetime, t.widget))
      ∧ (tick_active_toasts c δ w).roots = w.roots
      ∧ (tick_active_toasts c δ w).toasts.length = w.toasts.length) ∧
    ∀ t ∈ w.toasts, ∀ g0, t.widget = some g0 → t.lifetime < t.elapsed + δ →
      ¬g0.buttonId ∈ pressed →
      tickToast c δ t ∈ (channelTick cfg c δ pressed w).toasts ∧
      (tickToast c δ t).widget = some g0 ∧
      (tickToast c δ t).id = t.id := by
  refine ⟨⟨?_, rfl, ?_⟩, ?_⟩
  · show (w.toasts.map (tickToast c δ)).map _ = _
    rw [List.map_map]
    refine List.map_congr_left (fun t _ => ?_)
    simp [Function.comp, tickToast_id, tickToast_channel, tickToast_message,
      tickToast_lifetime, tickToast_widget]
  · show (w.toasts.map (tickToast c δ)).length = _
    rw [List.length_map]
  · intro t ht g0 hw hexp hbp
    refine ⟨channelTick_promoted_survives cfg c δ pressed w hids t g0 ht hw hbp, ?_, ?_⟩
    · rw [tickToast_widget, hw]
    · rw [tickToast_id]

/-- Witness for C5: a record 9 units into a 10-unit lifetime ticked by 5
(now expired) survives the tick with its widget intact. -/
theorem expiry_noop_witness :
    ((((⟨[⟨0, 0, "m", 9, 10, some ⟨1, 2, 3⟩⟩], [⟨4, 0⟩], 5⟩ : World).toasts.map
          (fun t => t.id)).Nodup)
      ∧ (⟨0, 0, "m", 9, 10, some ⟨1, 2, 3⟩⟩ : ToastEntity) ∈
          (⟨[⟨0, 0, "m", 9, 10, some ⟨1, 2, 3⟩⟩], [⟨4, 0⟩], 5⟩ : World).toasts
      ∧ (10 : Nat) < 9 + 5) ∧
    tickToast 0 5 ⟨0, 0, "m", 9, 10, some ⟨1, 2, 3⟩⟩ ∈
      (channelTick ⟨fun _ => 3, fun _ => 10⟩ 0 5 []
        ⟨[⟨0, 0, "m", 9, 10, some ⟨1, 2, 3⟩⟩], [⟨4, 0⟩], 5⟩).toasts :=
  ⟨⟨by decide, by decide, by decide⟩,
    ((expiry_noop ⟨fun _ => 3, fun _ => 10⟩ 0 5 []
        ⟨[⟨0, 0, "m", 9, 10, some ⟨1, 2, 3⟩⟩], [⟨4, 0⟩], 5⟩ (by decide)).2
      ⟨0, 0, "m", 9, 10, some ⟨1, 2, 3⟩⟩ (by decide) ⟨1, 2, 3⟩ (by decide)
      (by decide) (by decide)).1⟩

/-- Claim C6: timer subsystem contract.  Over one tick of channel `c`'s
chain, every surviving record descended from a record `t` present at the
start of the tick has elapsed clock `t.elapsed + δ` if `t` was a promoted
record of the channel, and exactly `t.elapsed` otherwise (pending records and
other channels' records are not advanced); in particular elapsed is
monotonically non-decreasing. -/
theorem timer_contract (cfg : Config) (c δ : Nat) (pressed : List Nat) (w : World)
    (hids : (w.toasts.map (fun t => t.id)).Nodup) :
    ∀ t ∈ w.toasts, ∀ t' ∈ (channelTick cfg c δ pressed w).toasts, t'.id = t.id →
      (t'.elapsed = if t.channel = c ∧ t.widget.isSome then t.elapsed + δ else t.elapsed) ∧
      t.elapsed ≤ t'.elapsed := by
  intro t ht t' ht' hid
  have hchar := channelTick_mem_char cfg c δ pressed w hids t ht t' ht' hid
  have he := congrArg ObsToast.elapsed hchar
  simp only [ToastEntity.obs] at he
  refine ⟨he, ?_⟩
  rw [he]
  split
  · omega
  · exact le_refl _

/-- Witness for C6: a promoted record advances by exactly the tick delta. -/
theorem timer_contract_witness :
    ((((⟨[⟨0, 0, "m", 2, 10, some ⟨1, 2, 3⟩⟩], [⟨4, 0⟩], 5⟩ : World).toasts.map
          (fun t => t.id)).Nodup)
      ∧ (⟨0, 0, "m", 2, 10, some ⟨1, 2, 3⟩⟩ : ToastEntity) ∈
          (⟨[⟨0, 0, "m", 2, 10, some ⟨1, 2, 3⟩⟩], [⟨4, 0⟩], 5⟩ : World).toasts
      ∧ (⟨0, 0, "m", 7, 10, some ⟨1, 2, 3⟩⟩ : ToastEntity) ∈
          (channelTick ⟨fun _ => 3, fun _ => 10⟩ 0 5 []
            ⟨[⟨0, 0, "m", 2, 10, some ⟨1, 2, 3⟩⟩], [⟨4, 0⟩], 5⟩).toasts) ∧
    ((⟨0, 0, "m", 7, 10, some ⟨1, 2, 3⟩⟩ : ToastEntity).elapsed
        = if (⟨0, 0, "m", 2, 10, some ⟨1, 2, 3⟩⟩ : ToastEntity).channel = 0
            ∧ (⟨0, 0, "m", 2, 10, some ⟨1, 2, 3⟩⟩ : ToastEntity).widget.isSome
          then 2 + 5 else 2) ∧
      (2 : Nat) ≤ (⟨0, 0, "m", 7, 10, some ⟨1, 2, 3⟩⟩ : ToastEntity).elapsed :=
  ⟨⟨by decide, by decide, by decide⟩,
    timer_contract ⟨fun _ => 3, fun _ => 10⟩ 0 5 []
      ⟨[⟨0, 0, "m", 2, 10, some ⟨1, 2, 3⟩⟩], [⟨4, 0⟩], 5⟩ (by decide)
      ⟨0, 0, "m", 2, 10, some ⟨1, 2, 3⟩⟩ (by decide)
      ⟨0, 0, "m", 7, 10, some ⟨1, 2, 3⟩⟩ (by decide) (by decide)⟩

/-- Claim C7: dismissal.  When a promoted record's dismiss button is pressed,
the dismissal phase removes the record and its whole widget subtree (record
entity, dismiss button, dismiss text, message text) from the data model, and
the removal is terminal: no sequence of later emissions or ticks ever
contains a record with that entity id again. -/
theorem dismissal_removes (pressed : List Nat) (w : World) (t : ToastEntity)
    (g0 : ToastWidget)
    (hnd : (w.toasts.flatMap ToastEntity.entIds).Nodup)
    (hbound : ∀ s ∈ w.toasts, s.id < w.nextId)
    (ht : t ∈ w.toasts) (hw : t.widget = some g0) (hbp : g0.buttonId ∈ pressed) :
    (∀ t' ∈ (handle_dismiss_toast_buttons pressed w).toasts, ¬t'.id = t.id) ∧
    (∀ i ∈ t.entIds, ¬i ∈ (handle_dismiss_toast_buttons pressed w).toasts.flatMap
        ToastEntity.entIds) ∧
    ∀ cfg evs, ¬t.id ∈ ((runTrace cfg (handle_dismiss_toast_buttons pressed w)
        evs).toasts.map (fun s => s.id)) := by
  have hmem : t.id ∈ dismissedIds pressed w :=
    mem_dismissedIds.mpr ⟨t, ht, g0, hw, hbp, rfl⟩
  have hpart1 : ∀ t' ∈ (handle_dismiss_toast_buttons pressed w).toasts, ¬t'.id = t.id := by
    intro t' ht' he
    have hpred := List.of_mem_filter ht'
    simp only [decide_eq_true_eq] at hpred
    rw [he] at hpred
    exact hpred hmem
  refine ⟨hpart1, ?_, ?_⟩
  · intro i hi hmem2
    obtain ⟨s, hs, his⟩ := List.mem_flatMap.mp hmem2
    have hsw : s ∈ w.toasts := List.mem_of_mem_filter hs
    have hst : ¬s = t := fun he => hpart1 s hs (by rw [he])
    have hnd2 := List.nodup_flatMap.mp hnd
    have hsym : Symmetric (fun x y : ToastEntity =>
        (ToastEntity.entIds x).Disjoint (ToastEntity.entIds y)) :=
      fun x y h => h.symm
    exact List.Pairwise.forall hsym hnd2.2 hsw ht hst his hi
  · intro cfg evs
    have hdead : DeadId t.id (handle_dismiss_toast_buttons pressed w) := by
      constructor
      · intro hmem3
        obtain ⟨t', ht', hte⟩ := List.mem_map.mp hmem3
        exact hpart1 t' ht' hte
      · show t.id < w.nextId
        exact hbound t ht
    exact (DeadId_runTrace cfg t.id _ evs hdead).1

/-- Witness for C7: dismissing the only visible toast removes it, and its id
never reappears over a further emission and tick. -/
theorem dismissal_removes_witness :
    ((((⟨[⟨0, 0, "m", 1, 10, some ⟨1, 2, 3⟩⟩], [⟨4, 0⟩], 5⟩ : World).toasts.flatMap
          ToastEntity.entIds).Nodup)
      ∧ (∀ s ∈ (⟨[⟨0, 0, "m", 1, 10, some ⟨1, 2, 3⟩⟩], [⟨4, 0⟩], 5⟩ : World).toasts,
          s.id < 5)
      ∧ (⟨0, 0, "m", 1, 10, some ⟨1, 2, 3⟩⟩ : ToastEntity) ∈
          (⟨[⟨0, 0, "m", 1, 10, some ⟨1, 2, 3⟩⟩], [⟨4, 0⟩], 5⟩ : World).toasts
      ∧ (1 : Nat) ∈ [1]) ∧
    ¬(0 : Nat) ∈ ((runTrace ⟨fun _ => 3, fun _ => 10⟩
        (handle_dismiss_toast_buttons [1]
          ⟨[⟨0, 0, "m", 1, 10, some ⟨1, 2, 3⟩⟩], [⟨4, 0⟩], 5⟩)
        [Event.submit 0 ["x"], Event.tick [0] 7 []]).toasts.map (fun s => s.id)) :=
  ⟨⟨by decide, by decide, by decide, by decide⟩,
    (dismissal_removes [1] ⟨[⟨0, 0, "m", 1, 10, some ⟨1, 2, 3⟩⟩], [⟨4, 0⟩], 5⟩
        ⟨0, 0, "m", 1, 10, some ⟨1, 2, 3⟩⟩ ⟨1, 2, 3⟩
        (by decide) (by decide) (by decide) (by decide) (by decide)).2.2
      ⟨fun _ => 3, fun _ => 10⟩ [Event.submit 0 ["x"], Event.tick [0] 7 []]⟩

/-- Claim C8: channel isolation.  Submitting notification requests on channel
`a` leaves channel `b`'s observable state — its ordered records with their
messages, clocks, lifetimes and visibility (hence its pending and promoted
counts and each record's promotion timing), and its container existence —
unchanged after any further trace of emissions and dismissal-free ticks. -/
theorem channel_isolation (cfg : Config) (a b : Nat) (msgs : List String) (w : World)
    (τ : List Event) (hne : ¬a = b) (hInv : w.Inv) (hτ : ∀ ev ∈ τ, ev.noDismiss) :
    obsChannel b (runTrace cfg (custom_toast cfg a msgs w) τ)
      = obsChannel b (runTrace cfg w τ) :=
  obs_agree_runTrace cfg b τ _ _ (custom_toast_Inv cfg a msgs w hInv) hInv
    (obsChannel_custom_toast_other cfg b a msgs w hne) hτ

/-- Witness for C8: an extra submission on channel 0 does not change channel
1's observables over a subsequent tick of both channels. -/
theorem channel_isolation_witness :
    ((¬(0 : Nat) = 1)
      ∧ (custom_toast ⟨fun _ => 3, fun _ => 10⟩ 1 ["m"] World.start).Inv
      ∧ (∀ ev ∈ [Event.tick [0, 1] 5 []], ev.noDismiss)) ∧
    obsChannel 1 (runTrace ⟨fun _ => 3, fun _ => 10⟩
        (custom_toast ⟨fun _ => 3, fun _ => 10⟩ 0 ["x", "y"]
          (custom_toast ⟨fun _ => 3, fun _ => 10⟩ 1 ["m"] World.start))
        [Event.tick [0, 1] 5 []])
      = obsChannel 1 (runTrace ⟨fun _ => 3, fun _ => 10⟩
          (custom_toast ⟨fun _ => 3, fun _ => 10⟩ 1 ["m"] World.start)
          [Event.tick [0, 1] 5 []]) :=
  ⟨⟨by decide, ⟨by decide, by decide, by decide, by decide, by decide⟩,
      by intro ev hev; rw [List.mem_singleton] at hev; subst hev; exact rfl⟩,
    channel_isolation ⟨fun _ => 3, fun _ => 10⟩ 0 1 ["x", "y"]
      (custom_toast ⟨fun _ => 3, fun _ => 10⟩ 1 ["m"] World.start)
      [Event.tick [0, 1] 5 []] (by decide)
      ⟨by decide, by decide, by decide, by decide, by decide⟩
      (by intro ev hev; rw [List.mem_singleton] at hev; subst hev; exact rfl)⟩

/-- Claim C9: adapter transparency.  The result-to-notification adapter
(modelled from the spec, §4.5) emits no notification requests and passes the
success value through unchanged on success, and on a failure collection
`[e1, e2]` emits exactly two requests whose texts are the display forms of
`e1` and `e2`, in that order, propagating no failure to the caller. -/
theorem adapter_transparency {α ε : Type} (display : ε → String) (a : α) (e1 e2 : ε) :
    anyhow_alert display (Except.ok a) = (some a, []) ∧
    anyhow_alert display (Except.error [e1, e2] : Except (List ε) α)
      = (none, [display e1, display e2]) :=
  ⟨rfl, rfl⟩

/-- Claim C10: safety of the root-container lookup.  In every state reachable
from the empty world by emissions and ticks, each channel's root query has at
most one match, so the `single()` extraction in the teardown check and in the
promotion phase (both guarded by a nonempty root query) never reaches its
multiple-matches panic branch. -/
theorem root_single_safe (cfg : Config) (evs : List Event) (c : Nat) :
    (rootsFor c (runTrace cfg World.start evs)).length ≤ 1 ∧
    ((rootsFor c (runTrace cfg World.start evs)).isEmpty = false →
      (queryHead (rootsFor c (runTrace cfg World.start evs))).isSome) := by
  have hle := rootsFor_length_le_one (runTrace_Inv cfg evs World.start Inv_start).2.2.1 c
  refine ⟨hle, fun hne => ?_⟩
  cases hcase : rootsFor c (runTrace cfg World.start evs) with
  | nil => rw [hcase] at hne; simp at hne
  | cons r rest =>
    cases rest with
    | nil => rfl
    | cons y rest2 =>
      rw [hcase] at hle
      simp at hle

/-- Witness for C10: after one emission and one tick the root query is
nonempty and `single()` succeeds. -/
theorem root_single_safe_witness :
    ((rootsFor 0 (runTrace ⟨fun _ => 3, fun _ => 10⟩ World.start
        [Event.submit 0 ["a"], Event.tick [0] 1 []])).isEmpty = false) ∧
    (queryHead (rootsFor 0 (runTrace ⟨fun _ => 3, fun _ => 10⟩ World.start
        [Event.submit 0 ["a"], Event.tick [0] 1 []]))).isSome :=
  ⟨by decide, (root_single_safe ⟨fun _ => 3, fun _ => 10⟩
      [Event.submit 0 ["a"], Event.tick [0] 1 []] 0).2 (by decide)⟩
